import Mathlib

/-!
# nbpy: dispatcher, codecs, connection framing and TCP controller

A shallow embedding of the Go sources

* `messages/dispatch.go`, `messages/queue.go` (handler table, async budget, timing aggregates),
* `codecs/json.go` (the JSON v1 codec),
* `connections/connection.go` (packet-format / codec binding and the framing loop),
* `nnet/tcpcontroller.go` (the controller teardown and the writer task),

followed by theorems about them.  Go `int`/`int64` values are integers; the `int64`
additions of the timing aggregates wrap explicitly (`wrap64`).  Goroutines are modelled by
an interleaving step function driven by an explicit schedule.
-/

namespace Nbpy

/-! ## Shared data -/

/-- A Go `[]byte`. -/
abbrev Bytes := List Nat

/-- Go `error` values; the two sentinel errors of package `packets` are told apart from
every other error. -/
inductive Error
  | ErrorDataNotMatch
  | ErrorDataNotReady
  | other (msg : String)
  deriving DecidableEq, Repr

/-- Modelled from the spec: the declaration of `codecs.IMData` is not among the sources.
It is Go's empty interface; the values the embedded code handles are `nil`, raw bytes and
scalar payloads. -/
inductive IMData
  | nil
  | bool (b : Bool)
  | int (i : Int)
  | str (s : String)
  | bytes (b : Bytes)
  deriving DecidableEq, Repr

/-- Two's-complement wrap-around of a Go `int64` result. -/
def wrap64 (x : Int) : Int := (x + 2 ^ 63) % 2 ^ 64 - 2 ^ 63

/-! ## `messages/dispatch.go` -/

/-- Modelled from the spec: the `Message` type (`messages/message.go`) is not among the
sources.  The fields are the ones `dispatch.go` reads: scheme id, routing tags, type id and
the sync/async flag, plus the payload. -/
structure Message where
  messageScheme : Int
  messageTag : List Int
  messageType : Int
  messageSync : Bool
  body : IMData
  deriving DecidableEq, Repr

/-- Constant `MaxAsyncMessageProcCount`. -/
def MaxAsyncMessageProcCount : Int := 1024

/-- A handler, `func(*Message) error`.  Its side effects act on a world `W`; handlers are
taken to return, and not to rewrite the routing fields of the message they are handed. -/
abbrev MessageProcFunc (W : Type) := Message → W → W × Option Error

/-- The decimal digit character of `d < 10`. -/
def digitChar (d : Nat) : Char :=
  match d with
  | 0 => '0' | 1 => '1' | 2 => '2' | 3 => '3' | 4 => '4'
  | 5 => '5' | 6 => '6' | 7 => '7' | 8 => '8' | _ => '9'

/-- Decimal digits of a natural number, most significant first, `"0"` for zero. -/
def fmtNat (n : Nat) : List Char :=
  if n = 0 then ['0'] else ((Nat.digits 10 n).map digitChar).reverse

/-- The `%d` verb of `fmt.Sprintf` on an integer. -/
def fmtD (i : Int) : List Char :=
  if i < 0 then '-' :: fmtNat i.natAbs else fmtNat i.natAbs

/-- The table key `fmt.Sprintf("%d-%d-%d", scheme, tag, tp)`. -/
def handlerKey (scheme tag tp : Int) : String :=
  String.mk (fmtD scheme ++ '-' :: (fmtD tag ++ '-' :: fmtD tp))

/-- The `Dispatcher` struct.  `fns` is the Go `map[string]MessageProcFunc`, `syncChannel`
holds the buffered content of the channel in arrival order; the two mutexes guard single
field updates, which are atomic steps here. -/
structure Dispatcher (W : Type) where
  fns : String → Option (MessageProcFunc W)
  syncChannel : List Message
  asyncCount : Int
  asyncTime : Int
  asyncTotal : Int
  asyncTimeMax : Int
  asyncTimeMin : Int

/-- The constructor `CreateDispatcher`: empty table and channel, all counters at Go's zero
value. -/
def CreateDispatcher (W : Type) : Dispatcher W :=
  { fns := fun _ => none, syncChannel := [], asyncCount := 0, asyncTime := 0,
    asyncTotal := 0, asyncTimeMax := 0, asyncTimeMin := 0 }

/-- Method `recordAsyncTime`. -/
def recordAsyncTime {W : Type} (tv : Int) (d : Dispatcher W) : Dispatcher W :=
  { d with
    asyncTime := wrap64 (d.asyncTime + tv)
    asyncTotal := wrap64 (d.asyncTotal + 1)
    asyncTimeMax := if tv > d.asyncTimeMax then tv else d.asyncTimeMax
    asyncTimeMin :=
      if tv < d.asyncTimeMin then tv
      else if d.asyncTimeMin = 0 then tv
      else d.asyncTimeMin }

/-- Method `incAsyncCount`. -/
def incAsyncCount {W : Type} (d : Dispatcher W) : Dispatcher W :=
  { d with asyncCount := d.asyncCount + 1 }

/-- Method `decAsyncCount`. -/
def decAsyncCount {W : Type} (d : Dispatcher W) : Dispatcher W :=
  { d with asyncCount := d.asyncCount - 1 }

/-- Method `GetAsyncCount`. -/
def GetAsyncCount {W : Type} (d : Dispatcher W) : Int := d.asyncCount

/-- Method `GetAsyncInfo`: mean, maximum and minimum handler time.  Go's `/` on `int64`
truncates toward zero. -/
def GetAsyncInfo {W : Type} (d : Dispatcher W) : Int × Int × Int :=
  if d.asyncTotal > 0 then
    (Int.tdiv d.asyncTime d.asyncTotal, d.asyncTimeMax, d.asyncTimeMin)
  else (0, d.asyncTimeMax, d.asyncTimeMin)

/-- Method `MessageMapped`: `receiver.fns[key] = fn`. -/
def MessageMapped {W : Type} (scheme tag tp : Int) (fn : MessageProcFunc W)
    (d : Dispatcher W) : Dispatcher W :=
  { d with fns := fun k => if k = handlerKey scheme tag tp then some fn else d.fns k }

/-- Method `MessageObjectMapped`: one `MessageMapped` per entry of the object's
`GetMappedTypes()` map, given here as its list of entries. -/
def MessageObjectMapped {W : Type} (scheme tag : Int) (o : List (Int × MessageProcFunc W))
    (d : Dispatcher W) : Dispatcher W :=
  o.foldl (fun acc kv => MessageMapped scheme tag kv.1 kv.2 acc) d

/-- One iteration of the `range message.messageTag` loop of `execMessageProc`.  `now` reads
the clock (`time.Now().UnixNano()`) off the world. -/
def execTag {W : Type} (now : W → Int) (message : Message) (count : Bool)
    (acc : Dispatcher W × W) (tag : Int) : Dispatcher W × W :=
  match acc.1.fns (handlerKey message.messageScheme tag message.messageType) with
  | none => acc
  | some fn =>
    let d1 := if count then incAsyncCount acc.1 else acc.1
    let st := now acc.2
    let w1 := (fn message acc.2).1
    let st1 := wrap64 (now w1 - st)
    let d2 := if count then decAsyncCount (recordAsyncTime st1 d1) else d1
    (d2, w1)

/-- Method `execMessageProc`, run to completion by one task. -/
def execMessageProc {W : Type} (now : W → Int) (d : Dispatcher W) (message : Message)
    (count : Bool) (w : W) : Dispatcher W × W :=
  message.messageTag.foldl (execTag now message count) (d, w)

/-- The first goroutine of `Dispatch`, the consumer of `syncChannel`: one receive, and the
handlers of the received message if the receive succeeded.  The task then ends; `none`
means it is still blocked on an empty channel. -/
def syncConsumer {W : Type} (now : W → Int) (d : Dispatcher W) (w : W) :
    Option (Dispatcher W × W) :=
  match d.syncChannel with
  | [] => none
  | syncMessage :: rest =>
    some (execMessageProc now { d with syncChannel := rest } syncMessage false w)

/-! ### The dispatch loop and its spawned tasks, as an interleaving -/

/-- A task spawned by `go func() { receiver.execMessageProc(message, true) }()`: the tags
still to be visited and whether the handler of the first of them is executing (between
`incAsyncCount` and `decAsyncCount`). -/
structure AsyncTask where
  message : Message
  tags : List Int
  running : Bool
  deriving DecidableEq, Repr

/-- The dispatcher together with the ingress queue and every task `Dispatch` started.
`admitted` holds when the dispatch loop has passed the budget check and stands before
`GlobalMessageQueue.Pop()`; `senders` are the tasks about to put a sync message on
`syncChannel`; `syncDone` holds once the consumer task of `syncChannel` has ended. -/
structure System (W : Type) where
  d : Dispatcher W
  world : W
  queue : List Message
  queueClosed : Bool
  admitted : Bool
  loopDone : Bool
  tasks : List AsyncTask
  senders : List Message
  syncDone : Bool

/-- Scheduler choices: the dispatch loop's budget check, its pop, a sender task's channel
send, the run of the consumer task of `syncChannel`, or one move of the async task at an
index (for a returning handler, the elapsed time it measured). -/
inductive Action
  | check
  | pop
  | send (i : Nat)
  | recv
  | task (i : Nat) (elapsed : Int)
  deriving DecidableEq, Repr

/-- One move of an async task inside `execMessageProc(message, true)`: skip a tag without
handler, enter a handler (after `incAsyncCount`), or leave it (`recordAsyncTime`,
`decAsyncCount`). -/
def taskStep {W : Type} (s : System W) (i : Nat) (elapsed : Int) : Option (System W) :=
  match s.tasks[i]? with
  | none => none
  | some t =>
    match t.tags with
    | [] => none
    | tag :: rest =>
      if t.running then
        match s.d.fns (handlerKey t.message.messageScheme tag t.message.messageType) with
        | none => none
        | some fn =>
          some { s with
            d := decAsyncCount (recordAsyncTime elapsed s.d)
            world := (fn t.message s.world).1
            tasks := s.tasks.set i { t with tags := rest, running := false } }
      else
        match s.d.fns (handlerKey t.message.messageScheme tag t.message.messageType) with
        | none => some { s with tasks := s.tasks.set i { t with tags := rest } }
        | some _ =>
          some { s with
            d := incAsyncCount s.d
            tasks := s.tasks.set i { t with running := true } }

/-- One scheduled move of the system; `none` when the chosen move is not enabled. -/
def step {W : Type} (now : W → Int) (s : System W) : Action → Option (System W)
  | Action.check =>
    if s.loopDone ∨ s.admitted then none
    else if GetAsyncCount s.d ≥ MaxAsyncMessageProcCount then some s
    else some { s with admitted := true }
  | Action.pop =>
    if s.loopDone ∨ ¬ s.admitted then none
    else
      match s.queue with
      | [] => if s.queueClosed then some { s with loopDone := true, admitted := false } else none
      | message :: rest =>
        if message.messageSync then
          some { s with queue := rest, admitted := false, senders := message :: s.senders }
        else
          some { s with queue := rest, admitted := false,
                        tasks := s.tasks ++ [⟨message, message.messageTag, false⟩] }
  | Action.send i =>
    match s.senders[i]? with
    | none => none
    | some m =>
      some { s with
        d := { s.d with syncChannel := s.d.syncChannel ++ [m] }
        senders := s.senders.eraseIdx i }
  | Action.recv =>
    if s.syncDone then none
    else
      match syncConsumer now s.d s.world with
      | none => none
      | some r => some { s with d := r.1, world := r.2, syncDone := true }
  | Action.task i elapsed => taskStep s i elapsed

/-- Run a schedule from a state. -/
def run {W : Type} (now : W → Int) : List Action → System W → Option (System W)
  | [], s => some s
  | a :: as, s =>
    match step now s a with
    | none => none
    | some s1 => run now as s1

/-- The state right after `Dispatch()` is called on a dispatcher with the given ingress
queue content. -/
def startDispatch {W : Type} (d : Dispatcher W) (w : W) (queue : List Message) : System W :=
  { d := d, world := w, queue := queue, queueClosed := false, admitted := false,
    loopDone := false, tasks := [], senders := [], syncDone := false }


/-! ## `codecs/json.go` -/

/-- Modelled from the spec: the `Decoder` interface of package `codecs` is not among the
sources; `Decode(bytes)` returns a status, a message (or nil) and the remaining bytes. -/
structure Decoder where
  Decode : Bytes → Option Error × IMData × Bytes

/-- Modelled from the spec: the `Encoder` interface of package `codecs` is not among the
sources; `Encode(message)` returns a status and bytes. -/
structure Encoder where
  Encode : IMData → Option Error × Bytes

/-- Modelled from the spec: the `Codec` struct of package `codecs` is not among the sources;
its fields are the ones the composite literal in `json.go` sets. -/
structure Codec where
  Protocol : Nat
  Version : Nat
  Decoder : Decoder
  Encoder : Encoder

/-- Method `DecoderJSONv1.Decode`: `return nil, nil, raw`. -/
def DecoderJSONv1.Decode (raw : Bytes) : Option Error × IMData × Bytes :=
  (none, IMData.nil, raw)

/-- Method `EncoderJSONv1.Encode`: `return nil, []byte("")`. -/
def EncoderJSONv1.Encode (_raw : IMData) : Option Error × Bytes :=
  (none, [])

/-- The registered codec `CodecJSONv1`; the constant `ProtocolJSON` is declared outside the
sources and is a parameter. -/
def CodecJSONv1 (ProtocolJSON : Nat) : Codec :=
  { Protocol := ProtocolJSON, Version := 1,
    Decoder := ⟨DecoderJSONv1.Decode⟩, Encoder := ⟨EncoderJSONv1.Encode⟩ }

/-! ## `connections/connection.go` -/

/-- Modelled from the spec: `packets.Packet` is not among the sources; protocol type and
version, flag bits and the raw payload. -/
structure Packet where
  ProtocolType : Nat
  ProtocolVer : Nat
  Encrypted : Bool
  Compressed : Bool
  CompressSupport : Bool
  Raw : Bytes
  deriving DecidableEq, Repr

/-- Modelled from the spec: the parser of a packet format is not among the sources.
`Prepare` and `Pop` work on the receive buffer, whose content after the call is the last
component of the result. -/
structure PacketParser where
  Prepare : Bytes → (Option Error × Option Bytes) × Bytes
  Pop : Bytes → (Option Error × Option Packet) × Bytes

/-- Modelled from the spec: `packets.PacketFormat` is not among the sources; a named
descriptor with its parser. -/
structure PacketFormat where
  Tag : String
  Parser : PacketParser

/-- Package `env`, which is not among the sources: the registries consulted by a
connection, and the constant `codecs.ProtocolMemory`. -/
structure Env where
  MatchPacketFormat : Bytes → Except Error PacketFormat × Bytes
  FindCodec : Nat → Nat → Except Error Codec
  ProtocolMemory : Nat

/-- The receive callback `OnReceive`, as a function of the messages delivered before and
the message delivered now (the `peer` copy it is handed is left out). -/
abbrev ReceiveFunc := List IMData → IMData → Option Error

/-- The `Connection` struct (the transport `Handle` and the channel `recvch` are carried by
`ProcState` and by the list of actions). -/
structure Connection where
  Id : Int
  Encrypt : Bool
  Compress : Bool
  OnReceive : Option ReceiveFunc
  protocol : Nat
  codec : Option Codec
  packetformat : Option PacketFormat

/-- The `ReceiveAction` struct; `data` holds the bytes `Lookup` appended to the shared
receive buffer before sending the action. -/
structure ReceiveAction where
  err : Option Error
  data : Bytes
  deriving DecidableEq, Repr

/-- Method `SetPacketFormat`. -/
def SetPacketFormat (packetformat : PacketFormat) (receiver : Connection) : Connection :=
  { receiver with packetformat := some packetformat }

/-- Method `SetProtocol`; `tp` and `ver` are `uint16`, the tag is
`uint32(tp) << 16 | uint32(ver)`. -/
def SetProtocol (env : Env) (tp ver : Nat) (receiver : Connection) : Connection :=
  match env.FindCodec tp ver with
  | Except.error _ => receiver
  | Except.ok codec =>
    { receiver with
      codec := some codec
      protocol := (((tp % 65536) <<< 16) ||| (ver % 65536)) % 2 ^ 32 }

/-- The local state of `Process`: its copy of the receiver, the flag `bProcessed`, the
content of the receive buffer, and two logs, the messages handed to `OnReceive` and the
byte strings written to `Handle`. -/
structure ProcState where
  receiver : Connection
  bProcessed : Bool
  data : Bytes
  delivered : List IMData
  written : List Bytes

/-- How a loop body of `Process` is left: falling off its end, `break`, `continue` of the
outer loop (wait for the next action), `goto exitLabel` (or `break` of the outer loop), a
nil dereference, or the step budget of the model running out. -/
inductive Flow
  | fall
  | brk
  | next
  | exit
  | nilDeref
  | outOfFuel
  deriving DecidableEq, Repr

/-- The `readLabel` loop of `Process`: decode, hand the message to `OnReceive`, go on with
the remainder. -/
def readLabel (recv : ReceiveFunc) : Nat → Codec → Bytes → ProcState → Flow × ProcState
  | 0, _, _, st => (Flow.outOfFuel, st)
  | fuel + 1, codec, packetData, st =>
    match codec.Decoder.Decode packetData with
    | (none, msg, remianData) =>
      match recv st.delivered msg with
      | some _ => (Flow.brk, { st with delivered := st.delivered ++ [msg] })
      | none => readLabel recv fuel codec remianData { st with delivered := st.delivered ++ [msg] }
    | (some _, _, _) => (Flow.fall, st)

/-- The `if receiver.protocol == 0` block of the extraction loop: an unresolved connection
takes protocol type and version from the packet. -/
def bindProtocol (env : Env) (packet : Packet) (st : ProcState) : ProcState :=
  if st.receiver.protocol = 0 then
    { st with receiver := SetProtocol env packet.ProtocolType packet.ProtocolVer st.receiver }
  else st

/-- The extraction loop of `Process` (`for { err, packet := ...Parser.Pop(action.data) ... }`). -/
def popLoop (env : Env) (recv : ReceiveFunc) : Nat → ProcState → Flow × ProcState
  | 0, st => (Flow.outOfFuel, st)
  | fuel + 1, st =>
    match st.receiver.packetformat with
    | none => (Flow.nilDeref, st)
    | some pf =>
      match pf.Parser.Pop st.data with
      | ((some err, _), data1) =>
        if err ≠ Error.ErrorDataNotReady then (Flow.exit, { st with data := data1 })
        else (Flow.brk, { st with data := data1 })
      | ((none, none), data1) => (Flow.brk, { st with data := data1 })
      | ((none, some packet), data1) =>
        let st2 : ProcState := bindProtocol env packet { st with data := data1 }
        let packetData := packet.Raw
        if packet.ProtocolType = env.ProtocolMemory then
          match recv st2.delivered (IMData.bytes packetData) with
          | some _ =>
            (Flow.exit, { st2 with delivered := st2.delivered ++ [IMData.bytes packetData] })
          | none =>
            popLoop env recv fuel { st2 with delivered := st2.delivered ++ [IMData.bytes packetData] }
        else
          match st2.receiver.codec with
          | none => (Flow.exit, st2)
          | some codec =>
            match readLabel recv fuel codec packetData st2 with
            | (Flow.fall, st3) => popLoop env recv fuel st3
            | (flow, st3) => (flow, st3)

/-- Packet-format selection at the head of a processing pass: `none` when the pass goes
on, otherwise how the pass ends. -/
def selectFormat (env : Env) (st : ProcState) : Option Flow × ProcState :=
  match st.receiver.packetformat with
  | some _ => (none, st)
  | none =>
    match env.MatchPacketFormat st.data with
    | (Except.error err, data1) =>
      if err = Error.ErrorDataNotMatch then (some Flow.exit, { st with data := data1 })
      else (some Flow.next, { st with data := data1 })
    | (Except.ok pf, data1) =>
      (none, { st with data := data1, receiver := { st.receiver with packetformat := some pf } })

/-- The `if !bProcessed` block of a processing pass. -/
def prepare (st : ProcState) : Option Flow × ProcState :=
  if st.bProcessed then (none, st)
  else
    match st.receiver.packetformat with
    | none => (some Flow.nilDeref, { st with bProcessed := true })
    | some pf =>
      match pf.Parser.Prepare st.data with
      | ((err, sd), data1) =>
        let st1 : ProcState := { st with bProcessed := true, data := data1 }
        let st2 : ProcState :=
          match err, sd with
          | none, some b => { st1 with written := st1.written ++ [b] }
          | _, _ => st1
        if st2.data.length = 0 then (some Flow.next, st2) else (none, st2)

/-- One processing pass of `Process`: the body of its outer loop for one received action. -/
def processPass (env : Env) (recv : ReceiveFunc) (fuel : Nat) (st : ProcState)
    (action : ReceiveAction) : Flow × ProcState :=
  let st0 : ProcState := { st with data := st.data ++ action.data }
  match selectFormat env st0 with
  | (some flow, st1) => (flow, st1)
  | (none, st1) =>
    match prepare st1 with
    | (some flow, st2) => (flow, st2)
    | (none, st2) =>
      match popLoop env recv fuel st2 with
      | (Flow.brk, st3) =>
        match action.err with
        | some _ => (Flow.exit, st3)
        | none => (Flow.next, st3)
      | (flow, st3) => (flow, st3)

/-- The outer loop of `Process` over the actions received on `recvch`; with no action left
the task waits (`Flow.next`). -/
def passes (env : Env) (recv : ReceiveFunc) (fuel : Nat) : ProcState → List ReceiveAction →
    Flow × ProcState
  | st, [] => (Flow.next, st)
  | st, action :: rest =>
    match processPass env recv fuel st action with
    | (Flow.next, st1) => passes env recv fuel st1 rest
    | (flow, st1) => (flow, st1)

/-- Method `Process`: refuses to run without a receive callback, otherwise runs the loop. -/
def Process (env : Env) (fuel : Nat) (receiver : Connection) (actions : List ReceiveAction) :
    Except Error (Flow × ProcState) :=
  match receiver.OnReceive with
  | none => Except.error (Error.other "OnReceive is not exists")
  | some recv => Except.ok (passes env recv fuel ⟨receiver, false, [], [], []⟩ actions)

/-- The operations on a connection that touch its bindings. -/
inductive ConnOp
  | setPacketFormat (pf : PacketFormat)
  | setProtocol (tp ver : Nat)
  | pass (action : ReceiveAction)

/-- Apply one operation to the processing state of a connection. -/
def applyOp (env : Env) (recv : ReceiveFunc) (fuel : Nat) (st : ProcState) : ConnOp → ProcState
  | ConnOp.setPacketFormat pf => { st with receiver := SetPacketFormat pf st.receiver }
  | ConnOp.setProtocol tp ver => { st with receiver := SetProtocol env tp ver st.receiver }
  | ConnOp.pass action => (processPass env recv fuel st action).2

/-- Apply a sequence of operations, first to last. -/
def applyOps (env : Env) (recv : ReceiveFunc) (fuel : Nat) (st : ProcState)
    (ops : List ConnOp) : ProcState :=
  ops.foldl (applyOp env recv fuel) st

/-- Whether an operation is a processing pass of `Process`. -/
def ConnOp.isPass : ConnOp → Bool
  | ConnOp.pass _ => true
  | _ => false

/-! ## `nnet/tcpcontroller.go` -/

/-- The transport `net.Conn` behind `ioinner`: whether it has been closed and what has been
written to it. -/
structure Conn where
  closed : Bool
  written : List Bytes
  deriving DecidableEq, Repr

/-- A Go channel of signals: open or closed. -/
structure Chan where
  closed : Bool
  deriving DecidableEq, Repr

/-- Run-time panics the teardown can raise. -/
inductive Panic
  | nilDereference
  | closeOfClosedChannel
  deriving DecidableEq, Repr

/-- The `TCPController` struct; a nil interface or channel is `none`. -/
structure TCPController where
  id : Nat
  recvBuffer : Bytes
  sendBuffer : Bytes
  ioinner : Option Conn
  source : String
  closeCh : Option Chan
  sendCh : Option Chan
  closeOnSended : Bool
  closeSendReq : Bool
  deriving DecidableEq, Repr

/-- What a call of `Close` did: the transport closes and channel closes it performed, the
panic its deferred `recover()` caught and logged, and the panic that left the call. -/
structure CloseLog where
  transportCloses : Nat
  channelCloses : Nat
  recovered : Option Panic
  propagated : Option Panic
  deriving DecidableEq, Repr

/-- The body of `Close` up to its return or its first panic. -/
def closeBody (receiver : TCPController) : TCPController × CloseLog :=
  match receiver.ioinner with
  | none => (receiver, ⟨0, 0, none, some Panic.nilDereference⟩)
  | some conn =>
    let r1 : TCPController := { receiver with ioinner := some { conn with closed := true } }
    match r1.closeCh with
    | none => (r1, ⟨1, 0, none, none⟩)
    | some ch =>
      if ch.closed then (r1, ⟨1, 0, none, some Panic.closeOfClosedChannel⟩)
      else ({ r1 with closeCh := none }, ⟨1, 1, none, none⟩)

/-- Method `Close`: the body under `defer func() { utils.LogPanic(recover()) }()`. -/
def Close (receiver : TCPController) : TCPController × CloseLog :=
  match closeBody receiver with
  | (r, log) => (r, { log with recovered := log.propagated, propagated := none })

/-- Method `CloseOnSended`. -/
def CloseOnSended (receiver : TCPController) : TCPController :=
  { receiver with closeOnSended := true }

/-- The constructor `createTCPController` on a live transport (it dereferences `ioSrc`),
with the session id it draws. -/
def createTCPController (ioSrc : Conn) (source : String) (id : Nat) : TCPController :=
  { id := id, recvBuffer := [], sendBuffer := [], ioinner := some ioSrc, source := source,
    closeCh := none, sendCh := none, closeOnSended := false, closeSendReq := false }

/-- The channel set-up at the head of `Schedule`. -/
def Schedule (receiver : TCPController) : TCPController :=
  { receiver with closeCh := some ⟨false⟩, sendCh := some ⟨false⟩ }

/-! ## Concrete inputs and specification-side definitions -/

/-- A clock that stands still. -/
def noClock {W : Type} : W → Int := fun _ => 0

/-- An async message with the single routing tag `0`. -/
def asyncMsg : Message := ⟨0, [0], 0, false, IMData.nil⟩

/-- A handler that does nothing and reports success. -/
def okHandler : MessageProcFunc Unit := fun _ w => (w, none)

/-- A fresh dispatcher with `okHandler` registered under `(0, 0, 0)`. -/
def loadedDispatcher : Dispatcher Unit := MessageMapped 0 0 0 okHandler (CreateDispatcher Unit)

/-- The dispatch loop admits `n` messages in a row: budget check, then pop. -/
def admitAll : Nat → List Action
  | 0 => []
  | n + 1 => Action.check :: Action.pop :: admitAll n

/-- The tasks at indices `start, start+1, ..., start+n-1` each make one move. -/
def enterAll (start : Nat) : Nat → List Action
  | 0 => []
  | n + 1 => Action.task start 0 :: enterAll (start + 1) n

/-- The schedule in which the loop admits `n` messages before any spawned task runs. -/
def floodSchedule (n : Nat) : List Action := admitAll n ++ enterAll 0 n

/-- A handler that appends the message it is handed to a log. -/
def logHandler : MessageProcFunc (List Message) := fun m w => (w ++ [m], none)

/-- A sync-class message of scheme `1`, routing tag `1` and the given type. -/
def syncMsg (tp : Int) : Message := ⟨1, [1], tp, true, IMData.nil⟩

/-- A dispatcher with `logHandler` registered for the types `1` and `2`, and the sync
messages of type `1` and `2` on its `syncChannel`, in that order. -/
def syncDispatcher : Dispatcher (List Message) :=
  { MessageMapped 1 1 2 logHandler (MessageMapped 1 1 1 logHandler (CreateDispatcher _)) with
    syncChannel := [syncMsg 1, syncMsg 2] }

/-- The handlers the specification expects `execMessageProc` to invoke: for each routing
tag in order, the one registered under (scheme, tag, type), if any. -/
def specInvoked {W : Type} (d : Dispatcher W) (m : Message) : List (MessageProcFunc W) :=
  m.messageTag.filterMap (fun tag => d.fns (handlerKey m.messageScheme tag m.messageType))

/-- Fold a sequence of duration samples into the aggregates with `recordAsyncTime`. -/
def foldSamples {W : Type} (samples : List Int) (d : Dispatcher W) : Dispatcher W :=
  samples.foldl (fun acc tv => recordAsyncTime tv acc) d

/-- What the consumer task can see of the system: nothing but `syncChannel` feeds it. -/
def SyncInv (s : System (List Message)) : Prop :=
  s.queue = [] ∧ s.queueClosed = false ∧ s.tasks = [] ∧ s.senders = [] ∧
  ((s.syncDone = false ∧ s.world = [] ∧ s.d.syncChannel = [syncMsg 1, syncMsg 2] ∧
      s.d.fns = syncDispatcher.fns) ∨
   (s.syncDone = true ∧ s.world = [syncMsg 1] ∧ s.d.syncChannel = [syncMsg 2]))

/-- A length-prefixed framing: one length byte, then that many payload bytes; every packet
carries protocol type 1, version 1. -/
def toyPop : Bytes → (Option Error × Option Packet) × Bytes
  | [] => ((some Error.ErrorDataNotReady, none), [])
  | n :: rest =>
    if n ≤ rest.length then
      ((none, some ⟨1, 1, false, false, false, rest.take n⟩), rest.drop n)
    else ((some Error.ErrorDataNotReady, none), n :: rest)

/-- A packet format with the length-prefixed framing and no preamble. -/
def toyFormat (tag : String) : PacketFormat :=
  ⟨tag, ⟨fun b => ((none, none), b), toyPop⟩⟩

/-- A decoder of one-byte messages: a non-zero byte is a message, a zero byte or the end of
the input is a decode failure. -/
def toyDecode : Bytes → Option Error × IMData × Bytes
  | [] => (some (Error.other "no data"), IMData.nil, [])
  | 0 :: rest => (some (Error.other "bad message"), IMData.nil, rest)
  | (b + 1) :: rest => (none, IMData.int (b + 1), rest)

/-- A codec around `toyDecode`, of protocol type 1 and the given version. -/
def toyCodec (ver : Nat) : Codec :=
  ⟨1, ver, ⟨toyDecode⟩, ⟨fun _ => (none, [])⟩⟩

/-- A registry that matches the toy format and finds a toy codec for every version; the
raw protocol type is 0. -/
def toyEnv : Env :=
  ⟨fun b => (Except.ok (toyFormat "toy"), b), fun _ ver => Except.ok (toyCodec ver), 0⟩

/-- A receive callback that always succeeds. -/
def okReceive : ReceiveFunc := fun _ _ => none

/-- A fresh connection with a receive callback and no binding yet. -/
def conn0 : Connection := ⟨1, false, false, some okReceive, 0, none, none⟩

/-! ## `nnet/tcpcontroller.go`: the writer task -/

/-- Modelled from the spec: `utils.MutexBuffer` is not among the sources.  `Read(buf)` is a
length-bounded read: it takes up to `len(buf)` bytes off the front of the store and returns
them; the second component is what stays in the store. -/
def MutexBuffer.Read (n : Nat) (buffer : Bytes) : Bytes × Bytes :=
  (buffer.take n, buffer.drop n)

/-- The outcome `(sizeWrited, sendErr)` of `ioinner.Write(buf[:sendBuffLen])`, as a function
of the transport and the chunk; the transport is outside the sources. -/
abbrev TransportWrite := Conn → Bytes → Nat × Option Error

/-- What the writer receives from `sendCh`: a send-pending signal, together with the bytes
`Write` appended to the send buffer before it, or the closure of the channel. -/
inductive SendSignal
  | pending (appended : Bytes)
  | closed
  deriving DecidableEq, Repr

/-- How the chunk loop of `processWrite` (`for sendBuffLen > 0`) is left: its condition
fails, plain `break`, `break mainsend`, a nil dereference of the transport, or the step
budget of the model running out. -/
inductive SendFlow
  | drained
  | brk
  | breakMain
  | nilDeref
  | outOfFuel
  deriving DecidableEq, Repr

/-- Where the writer task stands after the signals it was given: blocked on `sendCh`, ended
through the statements after `mainsend`, ended by its deferred `recover()`, or the step
budget of the model running out. -/
inductive WriterEnd
  | waiting
  | ended
  | recovered
  | outOfFuel
  deriving DecidableEq, Repr

/-- The controller as the writer task sees it, with a log: for each `Close` the writer
called, the content of the send buffer at that moment. -/
structure WriterState where
  receiver : TCPController
  closeCalls : List Bytes
  deriving DecidableEq, Repr

/-- A call `receiver.Close()` made by the writer. -/
def writerClose (st : WriterState) : WriterState :=
  { receiver := (Close st.receiver).1
    closeCalls := st.closeCalls ++ [st.receiver.sendBuffer] }

/-- The transport after `ioinner.Write(chunk)` reported `sizeWrited` bytes written. -/
def wrote (st : WriterState) (conn : Conn) (chunk : Bytes) (sizeWrited : Nat) : WriterState :=
  { st with receiver := { st.receiver with
      ioinner := some { conn with written := conn.written ++ [chunk.take sizeWrited] } } }

/-- The statement `sendBuffLen, _ = receiver.sendBuffer.Read(buf)`: the state with the chunk
taken off the send buffer. -/
def readChunk (sendbufferSize : Nat) (st : WriterState) : WriterState :=
  { st with receiver := { st.receiver with
      sendBuffer := (MutexBuffer.Read sendbufferSize st.receiver.sendBuffer).2 } }

/-- The chunk loop of `processWrite`, standing at the chunk `buf[:sendBuffLen]`. -/
def chunkLoop (write : TransportWrite) (sendbufferSize : Nat) :
    Nat → Bytes → WriterState → SendFlow × WriterState
  | 0, _, st => (SendFlow.outOfFuel, st)
  | fuel + 1, chunk, st =>
    if chunk.length > 0 then
      match st.receiver.ioinner with
      | none => (SendFlow.nilDeref, st)
      | some conn =>
        let st1 := wrote st conn chunk (write conn chunk).1
        if (write conn chunk).2 = none ∧ chunk.length = (write conn chunk).1 then
          let st2 := if st1.receiver.closeOnSended then writerClose st1 else st1
          chunkLoop write sendbufferSize fuel
            (MutexBuffer.Read sendbufferSize st2.receiver.sendBuffer).1
            (readChunk sendbufferSize st2)
        else if (write conn chunk).2 ≠ none then (SendFlow.breakMain, writerClose st1)
        else (SendFlow.brk, st1)
    else (SendFlow.drained, st)

/-- The statement `receiver.closeSendReq = true` after the loop `mainsend`. -/
def markCloseSendReq (st : WriterState) : WriterState :=
  { st with receiver := { st.receiver with closeSendReq := true } }

/-- Method `processWrite`: the loop `mainsend` over what arrives on `sendCh`, and the
statements after it. -/
def processWrite (write : TransportWrite) (sendbufferSize fuel : Nat) :
    WriterState → List SendSignal → WriterEnd × WriterState
  | st, [] => (WriterEnd.waiting, st)
  | st, SendSignal.closed :: _ => (WriterEnd.ended, markCloseSendReq st)
  | st, SendSignal.pending appended :: rest =>
    let st0 : WriterState :=
      { st with receiver := { st.receiver with sendBuffer := st.receiver.sendBuffer ++ appended } }
    match chunkLoop write sendbufferSize fuel
        (MutexBuffer.Read sendbufferSize st0.receiver.sendBuffer).1
        (readChunk sendbufferSize st0) with
    | (SendFlow.breakMain, st1) => (WriterEnd.ended, markCloseSendReq st1)
    | (SendFlow.nilDeref, st1) => (WriterEnd.recovered, st1)
    | (SendFlow.outOfFuel, st1) => (WriterEnd.outOfFuel, st1)
    | (_, st1) => processWrite write sendbufferSize fuel st1 rest

/-- A transport that writes every chunk in full. -/
def fullWrite : TransportWrite := fun _ chunk => (chunk.length, none)

/-- A transport that reports one byte fewer than it was given, and no error. -/
def shortWrite : TransportWrite := fun _ chunk => (chunk.length - 1, none)

/-- A transport whose writes fail. -/
def failWrite : TransportWrite := fun _ _ => (0, some (Error.other "broken pipe"))

/-- A scheduled controller on a live transport, with the given send-buffer content and
`closeOnSended` flag, as the writer task finds it. -/
def writer0 (content : Bytes) (closeOnSended : Bool) : WriterState :=
  ⟨{ Schedule (createTCPController ⟨false, []⟩ "peer" 1) with
      sendBuffer := content, closeOnSended := closeOnSended }, []⟩

/-! # Theorems -/

/-! ## The handler key is injective -/

theorem digitChar_ne_minus (d : Nat) : digitChar d ≠ '-' := by
  unfold digitChar
  split <;> decide

theorem digitChar_inj {a b : Nat} (ha : a < 10) (hb : b < 10)
    (h : digitChar a = digitChar b) : a = b := by
  interval_cases a <;> interval_cases b <;> first | rfl | (exact absurd h (by decide))

theorem fmtNat_ne_nil (n : Nat) : fmtNat n ≠ [] := by
  unfold fmtNat
  split
  · simp
  · rename_i h
    simp [Nat.digits_ne_nil_iff_ne_zero, h]

theorem fmtNat_no_minus (n : Nat) : '-' ∉ fmtNat n := by
  unfold fmtNat
  split
  · decide
  · intro h
    simp only [List.mem_reverse, List.mem_map] at h
    obtain ⟨d, _, hd⟩ := h
    exact digitChar_ne_minus d hd

theorem map_digitChar_inj : ∀ {l1 l2 : List Nat}, (∀ x ∈ l1, x < 10) → (∀ x ∈ l2, x < 10) →
    l1.map digitChar = l2.map digitChar → l1 = l2
  | [], [], _, _, _ => rfl
  | [], _ :: _, _, _, h => by simp at h
  | _ :: _, [], _, _, h => by simp at h
  | a :: l1, b :: l2, h1, h2, h => by
    simp only [List.map_cons, List.cons.injEq] at h
    have hab : a = b :=
      digitChar_inj (h1 a (List.mem_cons_self _ _)) (h2 b (List.mem_cons_self _ _)) h.1
    have hl : l1 = l2 :=
      map_digitChar_inj (fun x hx => h1 x (List.mem_cons_of_mem _ hx))
        (fun x hx => h2 x (List.mem_cons_of_mem _ hx)) h.2
    rw [hab, hl]

theorem fmtNat_inj {n m : Nat} (h : fmtNat n = fmtNat m) : n = m := by
  have key : ∀ k : Nat, k ≠ 0 → fmtNat k ≠ ['0'] := by
    intro k hk hcon
    unfold fmtNat at hcon
    rw [if_neg hk] at hcon
    have hrev := congrArg List.reverse hcon
    simp only [List.reverse_reverse, List.reverse_cons, List.reverse_nil, List.nil_append] at hrev
    have hlen := congrArg List.length hrev
    simp only [List.length_map, List.length_cons, List.length_nil] at hlen
    obtain ⟨d, hd⟩ := List.length_eq_one.mp hlen
    have hne := Nat.getLast_digit_ne_zero 10 hk
    rw [hd] at hrev
    simp only [List.map_cons, List.map_nil, List.cons.injEq, and_true] at hrev
    have hdlt : d < 10 := Nat.digits_lt_base (by norm_num) (by rw [hd]; simp)
    have hd0 : d = 0 := digitChar_inj hdlt (by norm_num) hrev
    simp [hd, hd0] at hne
  by_cases hn : n = 0
  · by_cases hm : m = 0
    · rw [hn, hm]
    · exfalso
      apply key m hm
      rw [← h, hn]; rfl
  · by_cases hm : m = 0
    · exfalso
      apply key n hn
      rw [h, hm]; rfl
    · unfold fmtNat at h
      rw [if_neg hn, if_neg hm] at h
      have h2 := List.reverse_injective h
      have h3 := map_digitChar_inj (fun x hx => Nat.digits_lt_base (by norm_num) hx)
        (fun x hx => Nat.digits_lt_base (by norm_num) hx) h2
      exact Nat.digits_inj_iff.mp h3

/-- Splitting at the first separator: the text before it has no separator. -/
theorem split_at_sep {c : Char} : ∀ {x y r1 r2 : List Char}, c ∉ x → c ∉ y →
    x ++ c :: r1 = y ++ c :: r2 → x = y ∧ r1 = r2
  | [], [], _, _, _, _, h => by simpa using h
  | [], b :: y, _, _, _, hy, h => by
    simp only [List.nil_append, List.cons_append, List.cons.injEq] at h
    exact absurd (h.1 ▸ List.mem_cons_self _ _) hy
  | a :: x, [], _, _, hx, _, h => by
    simp only [List.nil_append, List.cons_append, List.cons.injEq] at h
    exact absurd (h.1 ▸ List.mem_cons_self _ _) hx
  | a :: x, b :: y, r1, r2, hx, hy, h => by
    simp only [List.cons_append, List.cons.injEq] at h
    have := split_at_sep (fun hc => hx (List.mem_cons_of_mem _ hc))
      (fun hc => hy (List.mem_cons_of_mem _ hc)) h.2
    exact ⟨by rw [h.1, this.1], this.2⟩

theorem fmtNat_head_ne_minus (n : Nat) (r : List Char) (t : List Char) :
    fmtNat n ++ r ≠ '-' :: t := by
  intro h
  have hne := fmtNat_ne_nil n
  have hno := fmtNat_no_minus n
  cases hf : fmtNat n with
  | nil => exact hne hf
  | cons a l =>
    rw [hf] at h hno
    simp only [List.cons_append, List.cons.injEq] at h
    exact hno (h.1 ▸ List.mem_cons_self _ _)

/-- A formatted integer followed by a separator determines the integer and the rest. -/
theorem fmtD_sep_inj {i j : Int} {r1 r2 : List Char}
    (h : fmtD i ++ '-' :: r1 = fmtD j ++ '-' :: r2) : i = j ∧ r1 = r2 := by
  unfold fmtD at h
  by_cases hi : i < 0 <;> by_cases hj : j < 0
  · rw [if_pos hi, if_pos hj] at h
    simp only [List.cons_append, List.cons.injEq, true_and] at h
    have := split_at_sep (fmtNat_no_minus _) (fmtNat_no_minus _) h
    have hab := fmtNat_inj this.1
    refine ⟨?_, this.2⟩
    omega
  · rw [if_pos hi, if_neg hj] at h
    exact absurd h.symm (fmtNat_head_ne_minus _ _ _)
  · rw [if_neg hi, if_pos hj] at h
    exact absurd h (fmtNat_head_ne_minus _ _ _)
  · rw [if_neg hi, if_neg hj] at h
    have := split_at_sep (fmtNat_no_minus _) (fmtNat_no_minus _) h
    have hab := fmtNat_inj this.1
    refine ⟨?_, this.2⟩
    omega

theorem fmtD_inj {i j : Int} (h : fmtD i = fmtD j) : i = j := by
  have : fmtD i ++ '-' :: [] = fmtD j ++ '-' :: [] := by rw [h]
  exact (fmtD_sep_inj this).1

/-- The key `"%d-%d-%d"` determines the triple it was formatted from. -/
theorem handlerKey_inj {s t p s1 t1 p1 : Int}
    (h : handlerKey s t p = handlerKey s1 t1 p1) : s = s1 ∧ t = t1 ∧ p = p1 := by
  unfold handlerKey at h
  have h1 := congrArg String.data h
  simp only at h1
  have h2 := fmtD_sep_inj h1
  have h3 := fmtD_sep_inj h2.2
  exact ⟨h2.1, h3.1, fmtD_inj h3.2⟩


/-! ## The async budget (C1) -/

theorem run_append {W : Type} (now : W → Int) (as bs : List Action) (s : System W) :
    run now (as ++ bs) s = (run now as s).bind (run now bs) := by
  induction as generalizing s with
  | nil => simp [run]
  | cons a as ih =>
    simp only [List.cons_append, run]
    cases step now s a with
    | none => simp
    | some s1 => simpa using ih s1

theorem loaded_lookup : loadedDispatcher.fns (handlerKey 0 0 0) = some okHandler := by
  simp [loadedDispatcher, MessageMapped]

theorem run_admitAll (n : Nat) (ts : List AsyncTask) (q : List Message) :
    run noClock (admitAll n)
      ⟨loadedDispatcher, (), List.replicate n asyncMsg ++ q, false, false, false, ts, [], false⟩
    = some ⟨loadedDispatcher, (), q, false, false, false,
        ts ++ List.replicate n ⟨asyncMsg, [0], false⟩, [], false⟩ := by
  induction n generalizing ts with
  | zero => simp [admitAll, run]
  | succ n ih =>
    have h0 : ¬ (GetAsyncCount loadedDispatcher ≥ MaxAsyncMessageProcCount) := by
      simp [GetAsyncCount, loadedDispatcher, MessageMapped, CreateDispatcher,
        MaxAsyncMessageProcCount]
    simp only [admitAll, run, step, List.replicate_succ, List.cons_append]
    simp only [h0, Bool.false_eq_true, or_self, if_false, not_true_eq_false, or_false,
      asyncMsg]
    have := ih (ts ++ [⟨asyncMsg, [0], false⟩])
    simp only [asyncMsg, List.append_assoc, List.singleton_append] at this
    exact this

theorem run_enterAll (n : Nat) (L : List AsyncTask) (c : Int) :
    run noClock (enterAll L.length n)
      ⟨{ loadedDispatcher with asyncCount := c }, (), [], false, false, false,
        L ++ List.replicate n ⟨asyncMsg, [0], false⟩, [], false⟩
    = some ⟨{ loadedDispatcher with asyncCount := c + n }, (), [], false, false, false,
        L ++ List.replicate n ⟨asyncMsg, [0], true⟩, [], false⟩ := by
  induction n generalizing L c with
  | zero => simp [enterAll, run]
  | succ n ih =>
    have hk : loadedDispatcher.fns (handlerKey asyncMsg.messageScheme 0 asyncMsg.messageType)
        = some okHandler := loaded_lookup
    have hget : (L ++ List.replicate (n + 1) (⟨asyncMsg, [0], false⟩ : AsyncTask))[L.length]?
        = some ⟨asyncMsg, [0], false⟩ := by
      rw [List.getElem?_append_right (le_refl _)]
      simp [List.replicate_succ]
    simp only [enterAll, run, step, taskStep, hget, hk, incAsyncCount]
    have := ih (L ++ [⟨asyncMsg, [0], true⟩]) (c + 1)
    simp only [List.length_append, List.length_singleton, List.append_assoc,
      List.singleton_append] at this
    simp only [List.replicate_succ, List.set_append, lt_irrefl, if_false, Nat.sub_self,
      List.set_cons_zero, Bool.false_eq_true]
    rw [this]
    simp only [Nat.cast_add, Nat.cast_one, add_assoc, add_comm 1 (n : Int)]

theorem run_floodSchedule (n : Nat) :
    run noClock (floodSchedule n)
      (startDispatch loadedDispatcher () (List.replicate n asyncMsg))
    = some ⟨{ loadedDispatcher with asyncCount := n }, (), [], false, false, false,
        List.replicate n ⟨asyncMsg, [0], true⟩, [], false⟩ := by
  have h1 := run_admitAll n [] []
  have h2 := run_enterAll n [] 0
  simp only [List.append_nil, List.nil_append, List.length_nil, zero_add] at h1 h2
  rw [floodSchedule, run_append, startDispatch, h1]
  simpa [loadedDispatcher, MessageMapped, CreateDispatcher] using h2

/-- C1 (fails on the code): with 1025 async messages queued, each with one registered
handler, the schedule in which the dispatch loop admits all of them before any spawned task
reaches `incAsyncCount` leads to a reachable state with 1025 handlers in flight, above
`MaxAsyncMessageProcCount`. -/
theorem asyncCount_exceeds_budget :
    ∃ (sched : List Action) (s : System Unit),
      run noClock sched (startDispatch loadedDispatcher () (List.replicate 1025 asyncMsg))
        = some s ∧
      s.tasks = List.replicate 1025 ⟨asyncMsg, [0], true⟩ ∧
      GetAsyncCount s.d = 1025 ∧ MaxAsyncMessageProcCount < GetAsyncCount s.d := by
  refine ⟨floodSchedule 1025, _, run_floodSchedule 1025, rfl, ?_, ?_⟩ <;>
    simp [MaxAsyncMessageProcCount, GetAsyncCount]


/-! ## The sync consumer (C2) -/

theorem handlerKey_eq_iff {s t p s1 t1 p1 : Int} :
    handlerKey s t p = handlerKey s1 t1 p1 ↔ s = s1 ∧ t = t1 ∧ p = p1 :=
  ⟨handlerKey_inj, fun h => by rw [h.1, h.2.1, h.2.2]⟩

theorem syncDispatcher_lookup :
    syncDispatcher.fns (handlerKey 1 1 1) = some logHandler := by
  simp [syncDispatcher, MessageMapped, handlerKey_eq_iff]

theorem SyncInv_step (s s1 : System (List Message)) (a : Action) (h : SyncInv s)
    (hs : step noClock s a = some s1) : SyncInv s1 := by
  obtain ⟨hq, hc, ht, hsd, hrest⟩ := h
  cases a with
  | check =>
    simp only [step] at hs
    split at hs
    · exact absurd hs (by simp)
    · split at hs
      · have : s1 = s := by simpa using hs.symm
        rw [this]; exact ⟨hq, hc, ht, hsd, hrest⟩
      · have : s1 = { s with admitted := true } := by simpa using hs.symm
        rw [this]; exact ⟨hq, hc, ht, hsd, hrest⟩
  | pop =>
    simp only [step, hq, hc] at hs
    split at hs <;> simp at hs
  | send i =>
    simp only [step, hsd] at hs
    simp at hs
  | recv =>
    rcases hrest with ⟨hd, hw, hch, hf⟩ | ⟨hd, _, _⟩
    · simp only [step, hd, syncConsumer, hch] at hs
      simp only [Bool.false_eq_true, if_false, Option.some.injEq] at hs
      have hk : s.d.fns (handlerKey (syncMsg 1).messageScheme 1 (syncMsg 1).messageType)
          = some logHandler := by rw [hf]; exact syncDispatcher_lookup
      have hexec : execMessageProc noClock { s.d with syncChannel := [syncMsg 2] } (syncMsg 1)
          false s.world = ({ s.d with syncChannel := [syncMsg 2] }, [syncMsg 1]) := by
        simp only [execMessageProc, syncMsg, List.foldl_cons, List.foldl_nil, execTag]
        simp only [syncMsg] at hk
        rw [hk]
        simp [logHandler, hw]
      rw [hexec] at hs
      rw [← hs]
      exact ⟨hq, hc, ht, hsd, Or.inr ⟨rfl, rfl, rfl⟩⟩
    · simp [step, hd] at hs
  | task i e =>
    simp [step, taskStep, ht] at hs

theorem SyncInv_run (sched : List Action) : ∀ (s s1 : System (List Message)), SyncInv s →
    run noClock sched s = some s1 → SyncInv s1 := by
  induction sched with
  | nil =>
    intro s s1 h hr
    simp only [run, Option.some.injEq] at hr
    rw [← hr]; exact h
  | cons a as ih =>
    intro s s1 h hr
    simp only [run] at hr
    cases hstep : step noClock s a with
    | none => rw [hstep] at hr; exact absurd hr (by simp)
    | some s2 =>
      rw [hstep] at hr
      exact ih s2 s1 (SyncInv_step s s2 a h hstep) hr

/-- C2 (fails on the code): with the sync messages of type 1 and 2 on `syncChannel`, both
with a registered handler, every state any schedule reaches has invoked either no handler
or the handler of the first message only; the consumer task has then ended and the second
message stays on the channel. -/
theorem syncConsumer_handles_first_only (sched : List Action) (s : System (List Message))
    (h : run noClock sched (startDispatch syncDispatcher [] []) = some s) :
    s.world = [] ∨
      (s.world = [syncMsg 1] ∧ s.syncDone = true ∧ s.d.syncChannel = [syncMsg 2]) := by
  have hinit : SyncInv (startDispatch syncDispatcher [] []) :=
    ⟨rfl, rfl, rfl, rfl, Or.inl ⟨rfl, rfl, rfl, rfl⟩⟩
  obtain ⟨_, _, _, _, hrest⟩ := SyncInv_run sched _ s hinit h
  rcases hrest with ⟨_, hw, _, _⟩ | ⟨hd, hw, hch⟩
  · exact Or.inl hw
  · exact Or.inr ⟨hw, hd, hch⟩

theorem run_recv_syncDispatcher :
    run noClock [Action.recv] (startDispatch syncDispatcher [] []) =
      some { startDispatch syncDispatcher [] [] with
        d := { syncDispatcher with syncChannel := [syncMsg 2] }
        world := [syncMsg 1], syncDone := true } := by
  have hk : syncDispatcher.fns (handlerKey 1 1 1) = some logHandler := syncDispatcher_lookup
  have hch : syncDispatcher.syncChannel = [syncMsg 1, syncMsg 2] := rfl
  simp only [run, step, startDispatch, syncConsumer, hch, execMessageProc, syncMsg,
    List.foldl_cons, List.foldl_nil, execTag, hk]
  simp [logHandler]

/-- Witness for C2: after the consumer task has run, the handler of the first message has
been invoked and nothing else can follow. -/
theorem syncConsumer_handles_first_only_witness :
    run noClock [Action.recv] (startDispatch syncDispatcher [] []) =
      some { startDispatch syncDispatcher [] [] with
        d := { syncDispatcher with syncChannel := [syncMsg 2] }
        world := [syncMsg 1], syncDone := true } ∧
    (([syncMsg 1] : List Message) = [] ∨
      (([syncMsg 1] : List Message) = [syncMsg 1] ∧ true = true ∧
        [syncMsg 2] = [syncMsg 2])) :=
  ⟨run_recv_syncDispatcher,
    syncConsumer_handles_first_only [Action.recv] _ run_recv_syncDispatcher⟩

/-! ## Handler lookup and invocation (C5, C6) -/

theorem foldl_execTag {W : Type} (now : W → Int) (m : Message) (count : Bool)
    (tags : List Int) : ∀ (d : Dispatcher W) (w : W),
    (tags.foldl (execTag now m count) (d, w)).1.fns = d.fns ∧
    (tags.foldl (execTag now m count) (d, w)).1.asyncCount = d.asyncCount ∧
    (tags.foldl (execTag now m count) (d, w)).1.syncChannel = d.syncChannel ∧
    (tags.foldl (execTag now m count) (d, w)).2 =
      (tags.filterMap (fun tag => d.fns (handlerKey m.messageScheme tag m.messageType))).foldl
        (fun w fn => (fn m w).1) w := by
  induction tags with
  | nil => intro d w; simp
  | cons tag rest ih =>
    intro d w
    simp only [List.foldl_cons]
    cases hfn : d.fns (handlerKey m.messageScheme tag m.messageType) with
    | none =>
      have hstep : execTag now m count (d, w) tag = (d, w) := by
        simp [execTag, hfn]
      rw [hstep]
      obtain ⟨h1, h2, h3, h4⟩ := ih d w
      refine ⟨h1, h2, h3, ?_⟩
      rw [h4, List.filterMap_cons, hfn]
    | some fn =>
      have hstep : ∃ d1 : Dispatcher W, execTag now m count (d, w) tag = (d1, (fn m w).1) ∧
          d1.fns = d.fns ∧ d1.asyncCount = d.asyncCount ∧ d1.syncChannel = d.syncChannel := by
        cases count
        · exact ⟨d, by simp [execTag, hfn], rfl, rfl, rfl⟩
        · refine ⟨decAsyncCount (recordAsyncTime (wrap64 (now (fn m w).1 - now w))
              (incAsyncCount d)), by simp [execTag, hfn], rfl, ?_, rfl⟩
          simp [decAsyncCount, recordAsyncTime, incAsyncCount]
      obtain ⟨d1, he, hf, hc, hs⟩ := hstep
      rw [he]
      obtain ⟨h1, h2, h3, h4⟩ := ih d1 (fn m w).1
      refine ⟨h1.trans hf, h2.trans hc, h3.trans hs, ?_⟩
      rw [h4, List.filterMap_cons, hfn, List.foldl_cons, hf]

theorem foldl_execTag_unregistered {W : Type} (now : W → Int) (m : Message) (count : Bool)
    (tags : List Int) (d : Dispatcher W) (w : W)
    (h : ∀ tag ∈ tags, d.fns (handlerKey m.messageScheme tag m.messageType) = none) :
    tags.foldl (execTag now m count) (d, w) = (d, w) := by
  induction tags with
  | nil => rfl
  | cons tag rest ih =>
    have hstep : execTag now m count (d, w) tag = (d, w) := by
      simp [execTag, h tag (List.mem_cons_self _ _)]
    rw [List.foldl_cons, hstep]
    exact ih (fun t ht => h t (List.mem_cons_of_mem _ ht))

/-- C5: `execMessageProc` returns (it is a total function) having applied to the world, in
the order of the routing tags, exactly the handlers found under the key of (scheme, tag,
type), skipping tags without one; it leaves the table and `asyncCount` as they were, and a
message none of whose tags is registered leaves the whole dispatcher (count and timing
aggregates) and the world unchanged. -/
theorem execMessageProc_invokes_registered {W : Type} (now : W → Int) (d : Dispatcher W)
    (m : Message) (count : Bool) (w : W) :
    (execMessageProc now d m count w).2 =
        (specInvoked d m).foldl (fun w fn => (fn m w).1) w ∧
    (execMessageProc now d m count w).1.fns = d.fns ∧
    (execMessageProc now d m count w).1.asyncCount = d.asyncCount ∧
    ((∀ tag ∈ m.messageTag,
        d.fns (handlerKey m.messageScheme tag m.messageType) = none) →
      specInvoked d m = [] ∧ execMessageProc now d m count w = (d, w)) := by
  obtain ⟨h1, h2, _, h4⟩ := foldl_execTag now m count m.messageTag d w
  refine ⟨h4, h1, h2, fun h => ⟨?_, foldl_execTag_unregistered now m count _ d w h⟩⟩
  unfold specInvoked
  rw [List.filterMap_eq_nil_iff]
  exact h

/-- Witness for C5: a message with tags `[5, 6]` on a dispatcher with an empty table. -/
theorem execMessageProc_invokes_registered_witness :
    (∀ tag ∈ (⟨1, [5, 6], 2, false, IMData.nil⟩ : Message).messageTag,
        (CreateDispatcher Unit).fns (handlerKey 1 tag 2) = none) ∧
    execMessageProc noClock (CreateDispatcher Unit) ⟨1, [5, 6], 2, false, IMData.nil⟩ true ()
      = (CreateDispatcher Unit, ()) :=
  ⟨fun _ _ => rfl,
    ((execMessageProc_invokes_registered noClock (CreateDispatcher Unit)
      ⟨1, [5, 6], 2, false, IMData.nil⟩ true ()).2.2.2 (fun _ _ => rfl)).2⟩

/-- C6: after `MessageMapped(scheme, tag, tp, fn)` the lookup `execMessageProc` performs for
(scheme, tag, tp) finds `fn`, the lookup for any other triple is unchanged, and the key
`"%d-%d-%d"` is injective on integer triples, negative values included. -/
theorem MessageMapped_lookup {W : Type} (d : Dispatcher W) (scheme tag tp : Int)
    (fn : MessageProcFunc W) (scheme1 tag1 tp1 : Int) :
    (MessageMapped scheme tag tp fn d).fns (handlerKey scheme tag tp) = some fn ∧
    ((scheme1, tag1, tp1) ≠ (scheme, tag, tp) →
      (MessageMapped scheme tag tp fn d).fns (handlerKey scheme1 tag1 tp1)
        = d.fns (handlerKey scheme1 tag1 tp1)) ∧
    (handlerKey scheme1 tag1 tp1 = handlerKey scheme tag tp ↔
      (scheme1, tag1, tp1) = (scheme, tag, tp)) := by
  refine ⟨by simp [MessageMapped], ?_, ?_⟩
  · intro hne
    have : ¬ (scheme1 = scheme ∧ tag1 = tag ∧ tp1 = tp) := by
      rintro ⟨h1, h2, h3⟩
      exact hne (by rw [h1, h2, h3])
    simp [MessageMapped, handlerKey_eq_iff, this]
  · rw [handlerKey_eq_iff]
    simp [Prod.ext_iff]

/-- Witness for C6: the triples `(1, -2, 3)` and `(1, 2, -3)` do not collide. -/
theorem MessageMapped_lookup_witness :
    ((1, 2, -3) : Int × Int × Int) ≠ (1, -2, 3) ∧
    (MessageMapped 1 (-2) 3 okHandler (CreateDispatcher Unit)).fns (handlerKey 1 2 (-3))
      = (CreateDispatcher Unit).fns (handlerKey 1 2 (-3)) :=
  ⟨by decide,
    (MessageMapped_lookup (CreateDispatcher Unit) 1 (-2) 3 okHandler 1 2 (-3)).2.1
      (by decide)⟩

/-! ## Timing aggregates (C7) -/

theorem wrap64_id {x : Int} (h0 : 0 ≤ x) (h1 : x < 2 ^ 63) : wrap64 x = x := by
  unfold wrap64
  have h2 : (x + 2 ^ 63) % 2 ^ 64 = x + 2 ^ 63 :=
    Int.emod_eq_of_lt (by omega) (by omega)
  rw [h2]; ring

theorem sum_nonneg_of_pos (ps : List Int) (h : ∀ x ∈ ps, 0 < x) : 0 ≤ ps.sum := by
  induction ps with
  | nil => simp
  | cons a l ih =>
    have ha := h a (List.mem_cons_self _ _)
    have := ih (fun x hx => h x (List.mem_cons_of_mem _ hx))
    simp only [List.sum_cons]; omega

theorem length_le_sum_of_pos (ps : List Int) (h : ∀ x ∈ ps, 0 < x) :
    (ps.length : Int) ≤ ps.sum := by
  induction ps with
  | nil => simp
  | cons a l ih =>
    have ha := h a (List.mem_cons_self _ _)
    have := ih (fun x hx => h x (List.mem_cons_of_mem _ hx))
    simp only [List.sum_cons, List.length_cons, Nat.cast_add, Nat.cast_one]; omega

/-- The aggregates after folding strictly positive samples into a fresh dispatcher. -/
theorem foldSamples_pos {W : Type} (ps : List Int) (hpos : ∀ x ∈ ps, 0 < x)
    (hsum : ps.sum < 2 ^ 63) :
    (foldSamples ps (CreateDispatcher W)).asyncTotal = ps.length ∧
    (foldSamples ps (CreateDispatcher W)).asyncTime = ps.sum ∧
    (ps = [] → (foldSamples ps (CreateDispatcher W)).asyncTimeMax = 0 ∧
      (foldSamples ps (CreateDispatcher W)).asyncTimeMin = 0) ∧
    (ps ≠ [] →
      ((foldSamples ps (CreateDispatcher W)).asyncTimeMax ∈ ps ∧
        ∀ x ∈ ps, x ≤ (foldSamples ps (CreateDispatcher W)).asyncTimeMax) ∧
      ((foldSamples ps (CreateDispatcher W)).asyncTimeMin ∈ ps ∧
        ∀ x ∈ ps, (foldSamples ps (CreateDispatcher W)).asyncTimeMin ≤ x)) := by
  induction ps using List.reverseRecOn with
  | nil => simp [foldSamples, CreateDispatcher]
  | append_singleton l a ih =>
    have hposl : ∀ x ∈ l, 0 < x := fun x hx => hpos x (List.mem_append_left _ hx)
    have ha : 0 < a := hpos a (by simp)
    have hl0 := sum_nonneg_of_pos l hposl
    have hlen := length_le_sum_of_pos l hposl
    have hsum1 : l.sum + a < 2 ^ 63 := by simpa using hsum
    obtain ⟨h1, h2, h3, h4⟩ := ih hposl (by omega)
    have hfold : foldSamples (l ++ [a]) (CreateDispatcher W)
        = recordAsyncTime a (foldSamples l (CreateDispatcher W)) := by
      simp [foldSamples, List.foldl_append]
    rw [hfold]
    refine ⟨?_, ?_, by simp, fun _ => ?_⟩
    · simp only [recordAsyncTime, h1]
      rw [wrap64_id (by omega) (by omega)]
      simp
    · simp only [recordAsyncTime, h2]
      rw [wrap64_id (by omega) (by omega)]
      simp
    · by_cases hl : l = []
      · obtain ⟨hmax, hmin⟩ := h3 hl
        subst hl
        simp only [recordAsyncTime, hmax, hmin]
        simp [ha, not_lt.mpr (le_of_lt ha)]
      · obtain ⟨⟨hmaxm, hmaxb⟩, ⟨hminm, hminb⟩⟩ := h4 hl
        have hminpos := hposl _ hminm
        simp only [recordAsyncTime]
        refine ⟨⟨?_, ?_⟩, ⟨?_, ?_⟩⟩
        · split
          · simp
          · exact List.mem_append_left _ hmaxm
        · intro x hx
          rcases List.mem_append.mp hx with hx | hx
          · have := hmaxb x hx
            split <;> omega
          · have : x = a := by simpa using hx
            split <;> omega
        · split
          · simp
          · rw [if_neg (by omega)]
            exact List.mem_append_left _ hminm
        · intro x hx
          rcases List.mem_append.mp hx with hx | hx
          · have := hminb x hx
            split
            · omega
            · rw [if_neg (by omega)]; exact this
          · have : x = a := by simpa using hx
            split
            · omega
            · rw [if_neg (by omega)]; omega

/-- C7 (fails on the code): the samples `0, 3` leave `asyncTimeMin = 3`, not their minimum
`0`, and `GetAsyncInfo` reports that `3`; and the `int64` sum of two samples of `2^62` wraps
to `-2^63`. -/
theorem asyncTimeMin_loses_zero_sample :
    (foldSamples [0, 3] (CreateDispatcher Unit)).asyncTimeMin = 3 ∧
    GetAsyncInfo (foldSamples [0, 3] (CreateDispatcher Unit)) = (1, 3, 3) ∧
    ¬ (∀ x ∈ ([0, 3] : List Int),
        (foldSamples [0, 3] (CreateDispatcher Unit)).asyncTimeMin ≤ x) ∧
    (foldSamples [2 ^ 62, 2 ^ 62] (CreateDispatcher Unit)).asyncTime = -(2 ^ 63) := by
  decide

theorem foldSamples_snoc {W : Type} (l : List Int) (a : Int) (d : Dispatcher W) :
    foldSamples (l ++ [a]) d = recordAsyncTime a (foldSamples l d) := by
  simp [foldSamples, List.foldl_append]

/-- Count, sum and maximum after folding non-negative samples into a fresh dispatcher, and
what is always true of the minimum field: it is non-negative and one of the samples. -/
theorem foldSamples_nonneg {W : Type} (l : List Int) (hnn : ∀ x ∈ l, 0 ≤ x)
    (hsum : l.sum < 2 ^ 63) (hlen : (l.length : Int) < 2 ^ 63) :
    (foldSamples l (CreateDispatcher W)).asyncTotal = l.length ∧
    (foldSamples l (CreateDispatcher W)).asyncTime = l.sum ∧
    (l = [] → (foldSamples l (CreateDispatcher W)).asyncTimeMax = 0 ∧
      (foldSamples l (CreateDispatcher W)).asyncTimeMin = 0) ∧
    (l ≠ [] →
      ((foldSamples l (CreateDispatcher W)).asyncTimeMax ∈ l ∧
        ∀ x ∈ l, x ≤ (foldSamples l (CreateDispatcher W)).asyncTimeMax) ∧
      (foldSamples l (CreateDispatcher W)).asyncTimeMin ∈ l) ∧
    0 ≤ (foldSamples l (CreateDispatcher W)).asyncTimeMin := by
  induction l using List.reverseRecOn with
  | nil => simp [foldSamples, CreateDispatcher]
  | append_singleton l a ih =>
    have hnnl : ∀ x ∈ l, 0 ≤ x := fun x hx => hnn x (List.mem_append_left _ hx)
    have ha : 0 ≤ a := hnn a (by simp)
    have hl0 : 0 ≤ l.sum := List.sum_nonneg hnnl
    have hsum1 : l.sum + a < 2 ^ 63 := by simpa using hsum
    have hlen1 : (l.length : Int) + 1 < 2 ^ 63 := by simpa using hlen
    obtain ⟨h1, h2, h3, h4, h5⟩ := ih hnnl (by omega) (by omega)
    rw [foldSamples_snoc]
    refine ⟨?_, ?_, by simp, fun _ => ?_, ?_⟩
    · simp only [recordAsyncTime, h1]
      rw [wrap64_id (by omega) (by omega)]
      simp
    · simp only [recordAsyncTime, h2]
      rw [wrap64_id (by omega) (by omega)]
      simp
    · by_cases hl : l = []
      · obtain ⟨hmax, hmin⟩ := h3 hl
        subst hl
        simp only [recordAsyncTime, hmax, hmin, List.nil_append, List.mem_singleton]
        have hnl : ¬ a < 0 := by omega
        refine ⟨⟨?_, ?_⟩, ?_⟩
        · split
          · rfl
          · omega
        · intro x hx
          split <;> omega
        · simp [hnl]
      · obtain ⟨⟨hmaxm, hmaxb⟩, hminm⟩ := h4 hl
        simp only [recordAsyncTime]
        refine ⟨⟨?_, ?_⟩, ?_⟩
        · split
          · simp
          · exact List.mem_append_left _ hmaxm
        · intro x hx
          rcases List.mem_append.mp hx with hx | hx
          · have := hmaxb x hx
            split <;> omega
          · have : x = a := by simpa using hx
            split <;> omega
        · split
          · simp
          · split
            · simp
            · exact List.mem_append_left _ hminm
    · simp only [recordAsyncTime]
      split
      · exact ha
      · split
        · exact ha
        · exact h5

/-- While the minimum field is non-negative, it is zero after a sample exactly when that
sample is zero. -/
theorem recordAsyncTime_min_eq_zero {W : Type} (d : Dispatcher W) (tv : Int)
    (hd : 0 ≤ d.asyncTimeMin) :
    (recordAsyncTime tv d).asyncTimeMin = 0 ↔ tv = 0 := by
  simp only [recordAsyncTime]
  split
  · exact Iff.rfl
  · split
    · exact Iff.rfl
    · constructor <;> intro h <;> omega

/-- C7 (amended): for every non-empty sequence of non-negative samples whose sum and count
stay below `2^63`, folded into a fresh dispatcher: the count, the sum and the maximum are
exact; the minimum field is the true minimum exactly when no sample is zero or the last
sample is zero; and `GetAsyncInfo` returns sum / count together with the maximum and minimum
fields. -/
theorem recordAsyncTime_aggregates_exact {W : Type} (samples : List Int)
    (hne : samples ≠ []) (hnn : ∀ x ∈ samples, 0 ≤ x) (hsum : samples.sum < 2 ^ 63)
    (hlen : (samples.length : Int) < 2 ^ 63) :
    (foldSamples samples (CreateDispatcher W)).asyncTotal = samples.length ∧
    (foldSamples samples (CreateDispatcher W)).asyncTime = samples.sum ∧
    ((foldSamples samples (CreateDispatcher W)).asyncTimeMax ∈ samples ∧
      ∀ x ∈ samples, x ≤ (foldSamples samples (CreateDispatcher W)).asyncTimeMax) ∧
    (((foldSamples samples (CreateDispatcher W)).asyncTimeMin ∈ samples ∧
        ∀ x ∈ samples, (foldSamples samples (CreateDispatcher W)).asyncTimeMin ≤ x) ↔
      ((0 : Int) ∈ samples → samples.getLast? = some 0)) ∧
    GetAsyncInfo (foldSamples samples (CreateDispatcher W)) =
      (Int.tdiv samples.sum samples.length,
        (foldSamples samples (CreateDispatcher W)).asyncTimeMax,
        (foldSamples samples (CreateDispatcher W)).asyncTimeMin) := by
  obtain ⟨h1, h2, _, h4, h5⟩ := foldSamples_nonneg (W := W) samples hnn hsum hlen
  obtain ⟨hmax, hminm⟩ := h4 hne
  have hzero : (foldSamples samples (CreateDispatcher W)).asyncTimeMin = 0 ↔
      samples.getLast? = some 0 := by
    rcases List.eq_nil_or_concat samples with hnil | ⟨l, a, hla⟩
    · exact absurd hnil hne
    · rw [List.concat_eq_append] at hla
      subst hla
      have hnnl : ∀ x ∈ l, 0 ≤ x := fun x hx => hnn x (List.mem_append_left _ hx)
      have ha : 0 ≤ a := hnn a (by simp)
      have hl0 : 0 ≤ l.sum := List.sum_nonneg hnnl
      have hsum1 : l.sum + a < 2 ^ 63 := by simpa using hsum
      have hlen1 : (l.length : Int) + 1 < 2 ^ 63 := by simpa using hlen
      obtain ⟨_, _, _, _, hmin0⟩ := foldSamples_nonneg (W := W) l hnnl (by omega) (by omega)
      rw [foldSamples_snoc, recordAsyncTime_min_eq_zero _ _ hmin0]
      simp
  refine ⟨h1, h2, hmax, ?_, ?_⟩
  · constructor
    · intro hex h0
      have := hex.2 0 h0
      exact hzero.mp (by omega)
    · intro hcond
      by_cases h0 : (0 : Int) ∈ samples
      · have hmin : (foldSamples samples (CreateDispatcher W)).asyncTimeMin = 0 :=
          hzero.mpr (hcond h0)
        rw [hmin]
        exact ⟨h0, hnn⟩
      · have hpos : ∀ x ∈ samples, 0 < x := by
          intro x hx
          have := hnn x hx
          have hx0 : x ≠ 0 := fun h => h0 (h ▸ hx)
          omega
        exact ((foldSamples_pos (W := W) samples hpos hsum).2.2.2 hne).2
  · have hpos1 : (foldSamples samples (CreateDispatcher W)).asyncTotal > 0 := by
      rw [h1]
      have : 0 < samples.length := List.length_pos.mpr hne
      omega
    simp only [GetAsyncInfo]
    rw [if_pos hpos1, h2, h1]

/-- Witness for C7 (amended): the samples `5, 0, 0`, whose minimum `0` is recorded. -/
theorem recordAsyncTime_aggregates_exact_witness :
    ([5, 0, 0] : List Int) ≠ [] ∧ (∀ x ∈ ([5, 0, 0] : List Int), 0 ≤ x) ∧
    (foldSamples [5, 0, 0] (CreateDispatcher Unit)).asyncTotal
      = (([5, 0, 0] : List Int)).length ∧
    ((foldSamples [5, 0, 0] (CreateDispatcher Unit)).asyncTimeMin ∈ ([5, 0, 0] : List Int) ∧
      ∀ x ∈ ([5, 0, 0] : List Int),
        (foldSamples [5, 0, 0] (CreateDispatcher Unit)).asyncTimeMin ≤ x) :=
  ⟨by decide, by decide,
    (recordAsyncTime_aggregates_exact (W := Unit) [5, 0, 0] (by decide) (by decide)
      (by decide) (by decide)).1,
    (recordAsyncTime_aggregates_exact (W := Unit) [5, 0, 0] (by decide) (by decide)
      (by decide) (by decide)).2.2.2.1.mpr (fun _ => by decide)⟩

/-! ## The JSON v1 codec (C3) -/

/-- C3 (fails on the code): the JSON v1 codec does not round-trip: decoding the encoding of
the message `7` yields nil, and encoding what `[1, 2]` decodes to yields no bytes. -/
theorem jsonv1_no_roundtrip :
    ((CodecJSONv1 2).Decoder.Decode ((CodecJSONv1 2).Encoder.Encode (IMData.int 7)).2).2.1
      ≠ IMData.int 7 ∧
    ((CodecJSONv1 2).Encoder.Encode ((CodecJSONv1 2).Decoder.Decode [1, 2]).2.1).2 ≠ [1, 2] := by
  decide

/-- C3 (amended): for the JSON v1 codec neither direction fails; `Decode` returns the nil
message and its whole input as remainder, `Encode` returns the empty byte string; so
`Decode(Encode(m))` is the nil message, equal to `m` only for nil `m`, and
`Encode(Decode(b))` is empty, equal to `b` only for empty `b`. -/
theorem jsonv1_decode_encode (p : Nat) (m : IMData) (b : Bytes) :
    (CodecJSONv1 p).Decoder.Decode b = (none, IMData.nil, b) ∧
    (CodecJSONv1 p).Encoder.Encode m = (none, []) ∧
    (CodecJSONv1 p).Decoder.Decode ((CodecJSONv1 p).Encoder.Encode m).2
      = (none, IMData.nil, []) ∧
    (CodecJSONv1 p).Encoder.Encode ((CodecJSONv1 p).Decoder.Decode b).2.1 = (none, []) ∧
    (((CodecJSONv1 p).Decoder.Decode ((CodecJSONv1 p).Encoder.Encode m).2).2.1 = m
      ↔ m = IMData.nil) ∧
    (((CodecJSONv1 p).Encoder.Encode ((CodecJSONv1 p).Decoder.Decode b).2.1).2 = b
      ↔ b = []) := by
  refine ⟨rfl, rfl, rfl, rfl, ?_, ?_⟩
  · simp only [CodecJSONv1, DecoderJSONv1.Decode, EncoderJSONv1.Encode]
    exact eq_comm
  · simp only [CodecJSONv1, DecoderJSONv1.Decode, EncoderJSONv1.Encode]
    exact eq_comm

/-! ## Bindings of a connection (C4) -/

theorem readLabel_receiver (recv : ReceiveFunc) (fuel : Nat) : ∀ (codec : Codec)
    (packetData : Bytes) (st : ProcState),
    (readLabel recv fuel codec packetData st).2.receiver = st.receiver := by
  induction fuel with
  | zero => intro codec packetData st; rfl
  | succ n ih =>
    intro codec packetData st
    simp only [readLabel]
    split
    · split
      · rfl
      · rw [ih]
    · rfl

theorem SetProtocol_packetformat (env : Env) (tp ver : Nat) (r : Connection) :
    (SetProtocol env tp ver r).packetformat = r.packetformat := by
  unfold SetProtocol
  split <;> rfl

theorem bindProtocol_packetformat (env : Env) (packet : Packet) (st : ProcState) :
    (bindProtocol env packet st).receiver.packetformat = st.receiver.packetformat := by
  unfold bindProtocol
  split
  · exact SetProtocol_packetformat _ _ _ _
  · rfl

theorem bindProtocol_bound (env : Env) (packet : Packet) (st : ProcState)
    (h : st.receiver.protocol ≠ 0) : bindProtocol env packet st = st := by
  unfold bindProtocol
  rw [if_neg h]

/-- The extraction loop keeps the packet format, and keeps the whole receiver once the
protocol tag is resolved. -/
theorem popLoop_bindings (env : Env) (recv : ReceiveFunc) (fuel : Nat) : ∀ (st : ProcState),
    (popLoop env recv fuel st).2.receiver.packetformat = st.receiver.packetformat ∧
    (st.receiver.protocol ≠ 0 → (popLoop env recv fuel st).2.receiver = st.receiver) := by
  induction fuel with
  | zero => intro st; exact ⟨rfl, fun _ => rfl⟩
  | succ n ih =>
    intro st
    simp only [popLoop]
    split
    · exact ⟨rfl, fun _ => rfl⟩
    · split
      · split <;> exact ⟨rfl, fun _ => rfl⟩
      · exact ⟨rfl, fun _ => rfl⟩
      · rename_i pf hpf e packet data1 hpop
        have hb := bindProtocol_packetformat env packet { st with data := data1 }
        have hbb : st.receiver.protocol ≠ 0 →
            bindProtocol env packet { st with data := data1 } = { st with data := data1 } :=
          fun h => bindProtocol_bound env packet { st with data := data1 } h
        split
        · split
          · exact ⟨hb, fun h => by rw [hbb h]⟩
          · obtain ⟨h1, h2⟩ := ih { bindProtocol env packet { st with data := data1 } with
              delivered := (bindProtocol env packet { st with data := data1 }).delivered ++
                [IMData.bytes packet.Raw] }
            refine ⟨h1.trans hb, fun h => ?_⟩
            rw [h2 (by rw [hbb h]; exact h), hbb h]
        · split
          · exact ⟨hb, fun h => by rw [hbb h]⟩
          · rename_i codec hcodec
            have hr := readLabel_receiver recv n codec packet.Raw
              (bindProtocol env packet { st with data := data1 })
            split
            · rename_i st3 hread
              have hr3 : st3.receiver
                  = (bindProtocol env packet { st with data := data1 }).receiver := by
                rw [← hr, hread]
              obtain ⟨h1, h2⟩ := ih st3
              refine ⟨?_, fun h => ?_⟩
              · rw [h1, hr3]; exact hb
              · rw [h2 (by rw [hr3, hbb h]; exact h), hr3, hbb h]
            · rename_i flow st3 _ hread
              have hr3 : st3.receiver
                  = (bindProtocol env packet { st with data := data1 }).receiver := by
                rw [← hr, hread]
              refine ⟨?_, fun h => ?_⟩
              · rw [hr3]; exact hb
              · rw [hr3, hbb h]

theorem selectFormat_bindings (env : Env) (st : ProcState) :
    (∀ pf, st.receiver.packetformat = some pf →
      (selectFormat env st).2.receiver.packetformat = some pf) ∧
    (selectFormat env st).2.receiver.codec = st.receiver.codec ∧
    (selectFormat env st).2.receiver.protocol = st.receiver.protocol := by
  unfold selectFormat
  split
  · exact ⟨fun pf h => h, rfl, rfl⟩
  · rename_i hnone
    split
    · split <;> exact ⟨fun pf h => by simp [hnone] at h, rfl, rfl⟩
    · exact ⟨fun pf h => by simp [hnone] at h, rfl, rfl⟩

theorem prepare_receiver (st : ProcState) : (prepare st).2.receiver = st.receiver := by
  unfold prepare
  split
  · rfl
  · split
    · rfl
    · rename_i pf hpf
      rcases hp : pf.Parser.Prepare st.data with ⟨⟨err, sd⟩, data1⟩
      simp only
      cases err <;> cases sd <;> simp only <;> split <;> rfl

/-- One processing pass keeps a bound packet format, and keeps codec and protocol tag once
the tag is resolved. -/
theorem processPass_bindings (env : Env) (recv : ReceiveFunc) (fuel : Nat) (st : ProcState)
    (action : ReceiveAction) :
    (∀ pf, st.receiver.packetformat = some pf →
      (processPass env recv fuel st action).2.receiver.packetformat = some pf) ∧
    (st.receiver.protocol ≠ 0 →
      (processPass env recv fuel st action).2.receiver.codec = st.receiver.codec ∧
      (processPass env recv fuel st action).2.receiver.protocol = st.receiver.protocol) := by
  obtain ⟨hs1, hs2, hs3⟩ := selectFormat_bindings env { st with data := st.data ++ action.data }
  simp only [processPass]
  rcases hsel : selectFormat env { st with data := st.data ++ action.data } with ⟨f1, st1⟩
  rw [hsel] at hs1 hs2 hs3
  simp only at hs1 hs2 hs3
  cases f1 with
  | some flow => exact ⟨hs1, fun _ => ⟨hs2, hs3⟩⟩
  | none =>
    simp only
    have hp := prepare_receiver st1
    rcases hprep : prepare st1 with ⟨f2, st2⟩
    rw [hprep] at hp
    simp only at hp
    cases f2 with
    | some flow =>
      simp only
      rw [hp]
      exact ⟨hs1, fun _ => ⟨hs2, hs3⟩⟩
    | none =>
      simp only
      obtain ⟨hl1, hl2⟩ := popLoop_bindings env recv fuel st2
      have hfin : ∀ r : Flow × ProcState, r.2 = (popLoop env recv fuel st2).2 →
          (∀ pf, st.receiver.packetformat = some pf → r.2.receiver.packetformat = some pf) ∧
          (st.receiver.protocol ≠ 0 → r.2.receiver.codec = st.receiver.codec ∧
            r.2.receiver.protocol = st.receiver.protocol) := by
        intro r hr
        rw [hr]
        refine ⟨fun pf h => ?_, fun h => ?_⟩
        · rw [hl1, hp]; exact hs1 pf h
        · have h2 : st2.receiver.protocol ≠ 0 := by rw [hp, hs3]; exact h
          rw [hl2 h2, hp]
          exact ⟨hs2, hs3⟩
      apply hfin
      rcases hpl : popLoop env recv fuel st2 with ⟨f3, st3⟩
      cases f3 <;> simp only
      cases action.err <;> rfl

theorem applyOps_passes_bindings (env : Env) (recv : ReceiveFunc) (fuel : Nat)
    (ops : List ConnOp) : ∀ (st : ProcState), (∀ op ∈ ops, op.isPass = true) →
    (∀ pf, st.receiver.packetformat = some pf →
      (applyOps env recv fuel st ops).receiver.packetformat = some pf) ∧
    (st.receiver.protocol ≠ 0 →
      (applyOps env recv fuel st ops).receiver.codec = st.receiver.codec ∧
      (applyOps env recv fuel st ops).receiver.protocol = st.receiver.protocol) := by
  induction ops with
  | nil => intro st _; exact ⟨fun pf h => h, fun _ => ⟨rfl, rfl⟩⟩
  | cons op rest ih =>
    intro st hops
    have hop := hops op (List.mem_cons_self _ _)
    cases op with
    | setPacketFormat pf => simp [ConnOp.isPass] at hop
    | setProtocol tp ver => simp [ConnOp.isPass] at hop
    | pass action =>
      obtain ⟨h1, h2⟩ := processPass_bindings env recv fuel st action
      obtain ⟨i1, i2⟩ := ih (processPass env recv fuel st action).2
        (fun o ho => hops o (List.mem_cons_of_mem _ ho))
      simp only [applyOps, List.foldl_cons, applyOp] at i1 i2 ⊢
      refine ⟨fun pf h => i1 pf (h1 pf h), fun h => ?_⟩
      obtain ⟨c1, p1⟩ := h2 h
      obtain ⟨c2, p2⟩ := i2 (by rw [p1]; exact h)
      exact ⟨c2.trans c1, p2.trans p1⟩

/-- C4 (fails on the code): a second `SetPacketFormat` replaces the bound packet format, and
a second successful `SetProtocol` replaces the bound codec and the protocol tag. -/
theorem setters_replace_bindings :
    ((applyOps toyEnv okReceive 5 ⟨conn0, false, [], [], []⟩
        [ConnOp.setPacketFormat (toyFormat "A")]).receiver.packetformat.map PacketFormat.Tag
      = some "A") ∧
    ((applyOps toyEnv okReceive 5 ⟨conn0, false, [], [], []⟩
        [ConnOp.setPacketFormat (toyFormat "A"),
         ConnOp.setPacketFormat (toyFormat "B")]).receiver.packetformat.map PacketFormat.Tag
      = some "B") ∧
    ((applyOps toyEnv okReceive 5 ⟨conn0, false, [], [], []⟩
        [ConnOp.setProtocol 1 1]).receiver.codec.map Codec.Version = some 1) ∧
    ((applyOps toyEnv okReceive 5 ⟨conn0, false, [], [], []⟩
        [ConnOp.setProtocol 1 1]).receiver.protocol = 65537) ∧
    ((applyOps toyEnv okReceive 5 ⟨conn0, false, [], [], []⟩
        [ConnOp.setProtocol 1 1, ConnOp.setProtocol 1 2]).receiver.codec.map Codec.Version
      = some 2) ∧
    ((applyOps toyEnv okReceive 5 ⟨conn0, false, [], [], []⟩
        [ConnOp.setProtocol 1 1, ConnOp.setProtocol 1 2]).receiver.protocol = 65538) := by
  decide

/-- C4 (amended): along any sequence of processing passes of `Process` a bound packet format
is never replaced, and once the protocol tag is resolved (non-zero) neither the codec nor
the tag is replaced; the setters themselves overwrite: `SetPacketFormat` always binds the
format it is given, and `SetProtocol` binds the codec the registry finds together with its
tag, leaving both untouched only when the lookup fails. -/
theorem bindings_kept_by_passes (env : Env) (recv : ReceiveFunc) (fuel : Nat)
    (st : ProcState) (ops : List ConnOp) (hops : ∀ op ∈ ops, op.isPass = true) :
    (∀ pf, st.receiver.packetformat = some pf →
      (applyOps env recv fuel st ops).receiver.packetformat = some pf) ∧
    (st.receiver.protocol ≠ 0 →
      (applyOps env recv fuel st ops).receiver.codec = st.receiver.codec ∧
      (applyOps env recv fuel st ops).receiver.protocol = st.receiver.protocol) ∧
    (∀ pf, (SetPacketFormat pf st.receiver).packetformat = some pf) ∧
    (∀ tp ver codec, env.FindCodec tp ver = Except.ok codec →
      (SetProtocol env tp ver st.receiver).codec = some codec ∧
      (SetProtocol env tp ver st.receiver).protocol
        = (((tp % 65536) <<< 16) ||| (ver % 65536)) % 2 ^ 32) ∧
    (∀ tp ver e, env.FindCodec tp ver = Except.error e →
      SetProtocol env tp ver st.receiver = st.receiver) := by
  obtain ⟨h1, h2⟩ := applyOps_passes_bindings env recv fuel ops st hops
  refine ⟨h1, h2, fun pf => rfl, ?_, ?_⟩
  · intro tp ver codec h
    simp [SetProtocol, h]
  · intro tp ver e h
    simp [SetProtocol, h]

/-- Witness for C4 (amended): two passes over framed data keep the format bound before. -/
theorem bindings_kept_by_passes_witness :
    (∀ op ∈ [ConnOp.pass ⟨none, [1, 7]⟩, ConnOp.pass ⟨none, [1, 3]⟩], op.isPass = true) ∧
    (applyOps toyEnv okReceive 5 ⟨SetPacketFormat (toyFormat "A") conn0, false, [], [], []⟩
        [ConnOp.pass ⟨none, [1, 7]⟩, ConnOp.pass ⟨none, [1, 3]⟩]).receiver.packetformat
      = some (toyFormat "A") :=
  ⟨by simp [ConnOp.isPass],
    (bindings_kept_by_passes toyEnv okReceive 5
      ⟨SetPacketFormat (toyFormat "A") conn0, false, [], [], []⟩
      [ConnOp.pass ⟨none, [1, 7]⟩, ConnOp.pass ⟨none, [1, 3]⟩]
      (by simp [ConnOp.isPass])).1 (toyFormat "A") rfl⟩

/-! ## Teardown of the TCP controller (C8) -/

/-- C8 (fails on the code): on a controller without transport the teardown panics at
`ioinner.Close()`, before `closeCh` is looked at; the panic is recovered and the open
`closeCh` is still there after the call.  A `closeCh` that is already closed stays too. -/
theorem Close_keeps_closeCh_after_panic :
    (Close ⟨1, [], [], none, "peer", some ⟨false⟩, none, false, false⟩).1.closeCh
      = some ⟨false⟩ ∧
    (Close ⟨1, [], [], none, "peer", some ⟨false⟩, none, false, false⟩).2.recovered
      = some Panic.nilDereference ∧
    (Close ⟨1, [], [], some ⟨false, []⟩, "peer", some ⟨true⟩, none, false, false⟩).1.closeCh
      = some ⟨true⟩ ∧
    (Close ⟨1, [], [], some ⟨false, []⟩, "peer", some ⟨true⟩, none, false, false⟩).2.recovered
      = some Panic.closeOfClosedChannel := by
  decide

/-- C8 (amended): for every controller state, neither of two consecutive `Close` calls lets
a panic out, the second call leaves the state the first produced, `closeCh` is closed at
most once over both calls and not at all by the second; `closeCh` is nil after the first
call whenever the controller has a transport and `closeCh` was not already closed (as in
every state built by `createTCPController`, `Schedule` and `Close`), and in general exactly
when it was nil before or those two conditions hold. -/
theorem Close_twice (c : TCPController) :
    (Close c).2.propagated = none ∧
    (Close (Close c).1).2.propagated = none ∧
    (Close (Close c).1).1 = (Close c).1 ∧
    (Close c).2.channelCloses + (Close (Close c).1).2.channelCloses ≤ 1 ∧
    (Close (Close c).1).2.channelCloses = 0 ∧
    (c.ioinner ≠ none → (∀ ch, c.closeCh = some ch → ch.closed = false) →
      (Close c).1.closeCh = none ∧ (Close (Close c).1).2.recovered = none) ∧
    ((Close c).1.closeCh = none ↔
      (c.closeCh = none ∨
        (c.ioinner ≠ none ∧ ∀ ch, c.closeCh = some ch → ch.closed = false))) := by
  rcases c with ⟨id, rb, sb, io, src, cch, sch, cos, csr⟩
  cases io with
  | none => cases cch <;> simp [Close, closeBody]
  | some conn =>
    cases cch with
    | none => simp [Close, closeBody]
    | some ch =>
      rcases ch with ⟨cl⟩
      cases cl <;> simp [Close, closeBody]

/-- Witness for C8 (amended): a scheduled controller on a live transport. -/
theorem Close_twice_witness :
    (Schedule (createTCPController ⟨false, []⟩ "peer" 1)).ioinner ≠ none ∧
    (∀ ch, (Schedule (createTCPController ⟨false, []⟩ "peer" 1)).closeCh = some ch →
      ch.closed = false) ∧
    (Close (Schedule (createTCPController ⟨false, []⟩ "peer" 1))).1.closeCh = none ∧
    (Close (Schedule (createTCPController ⟨false, []⟩ "peer" 1))).2.channelCloses = 1 :=
  ⟨by decide, by simp [Schedule],
    ((Close_twice (Schedule (createTCPController ⟨false, []⟩ "peer" 1))).2.2.2.2.2.1
      (by decide) (by simp [Schedule])).1,
    by decide⟩

/-! ## Decode failures and the redecode loop (C9, C10) -/

/-- C9 (fails on the code): the buffer holds two packets, the payload of the first does not
decode; `Process` neither exits nor stops popping: it pops the second packet, delivers its
message and waits for the next action. -/
theorem primary_decode_failure_not_fatal :
    (toyDecode [0]).1 ≠ none ∧
    (Process toyEnv 10 conn0 [⟨none, [1, 0, 1, 7]⟩]).toOption.map
        (fun r => (r.1, r.2.delivered, r.2.data))
      = some (Flow.next, [IMData.int 7], []) := by
  decide

/-- C9 (amended): when the decode of a popped packet's payload fails (packet not of the raw
type, codec bound), nothing is delivered for that packet and the extraction loop goes on
with the next `Pop`; the connection is not aborted by the failure. -/
theorem popLoop_decode_failure_continues (env : Env) (recv : ReceiveFunc) (fuel : Nat)
    (st : ProcState) (pf : PacketFormat) (packet : Packet) (data1 : Bytes) (codec : Codec)
    (e : Error) (msg : IMData) (remain : Bytes)
    (hpf : st.receiver.packetformat = some pf)
    (hpop : pf.Parser.Pop st.data = ((none, some packet), data1))
    (hraw : packet.ProtocolType ≠ env.ProtocolMemory)
    (hcodec : (bindProtocol env packet { st with data := data1 }).receiver.codec = some codec)
    (hdec : codec.Decoder.Decode packet.Raw = (some e, msg, remain)) :
    popLoop env recv (fuel + 2) st
      = popLoop env recv (fuel + 1) (bindProtocol env packet { st with data := data1 }) ∧
    (bindProtocol env packet { st with data := data1 }).delivered = st.delivered ∧
    (bindProtocol env packet { st with data := data1 }).data = data1 := by
  refine ⟨?_, ?_, ?_⟩
  · conv_lhs => rw [popLoop]
    simp only [hpf, hpop, hraw, if_false, hcodec]
    rw [readLabel]
    simp only [hdec]
  · unfold bindProtocol; split <;> rfl
  · unfold bindProtocol; split <;> rfl

/-- Witness for C9 (amended): the first packet of `[1, 0, 1, 7]` under the toy framing. -/
theorem popLoop_decode_failure_continues_witness :
    popLoop toyEnv okReceive (0 + 2)
        ⟨SetPacketFormat (toyFormat "toy") conn0, true, [1, 0, 1, 7], [], []⟩
      = popLoop toyEnv okReceive (0 + 1)
          (bindProtocol toyEnv ⟨1, 1, false, false, false, [0]⟩
            { (⟨SetPacketFormat (toyFormat "toy") conn0, true, [1, 0, 1, 7], [], []⟩ :
                ProcState) with data := [1, 7] }) :=
  (popLoop_decode_failure_continues toyEnv okReceive 0
    ⟨SetPacketFormat (toyFormat "toy") conn0, true, [1, 0, 1, 7], [], []⟩
    (toyFormat "toy") ⟨1, 1, false, false, false, [0]⟩ [1, 7] (toyCodec 1)
    (Error.other "bad message") IMData.nil [] rfl rfl (by decide) rfl rfl).1

/-- C10 (fails on the code): with the JSON v1 codec bound and a receive callback that
always succeeds, the redecode loop has not ended after any number of iterations: after
`fuel` of them it has invoked `OnReceive` `fuel` times with the nil message and still
decodes the same bytes. -/
theorem readLabel_jsonv1_never_ends (recv : ReceiveFunc) (hrecv : ∀ h m, recv h m = none)
    (p : Nat) (fuel : Nat) (packetData : Bytes) (st : ProcState) :
    readLabel recv fuel (CodecJSONv1 p) packetData st
      = (Flow.outOfFuel,
          { st with delivered := st.delivered ++ List.replicate fuel IMData.nil }) := by
  induction fuel generalizing st with
  | zero => simp [readLabel]
  | succ n ih =>
    rw [readLabel]
    simp only [CodecJSONv1, DecoderJSONv1.Decode, hrecv]
    have := ih { st with delivered := st.delivered ++ [IMData.nil] }
    simp only [CodecJSONv1] at this
    rw [this]
    simp [List.replicate_succ]

/-- Witness for C10: three iterations on the payload `[1, 2]`. -/
theorem readLabel_jsonv1_never_ends_witness :
    (∀ h m, okReceive h m = none) ∧
    readLabel okReceive 3 (CodecJSONv1 2) [1, 2] ⟨conn0, true, [], [], []⟩
      = (Flow.outOfFuel,
          { (⟨conn0, true, [], [], []⟩ : ProcState) with
            delivered := [] ++ List.replicate 3 IMData.nil }) :=
  ⟨fun _ _ => rfl,
    readLabel_jsonv1_never_ends okReceive (fun _ _ => rfl) 2 3 [1, 2]
      ⟨conn0, true, [], [], []⟩⟩


/-! ## The writer task (C11, C12) -/

/-- C11 (fails on the code): a transport that reports one byte fewer than it is given,
without error.  The test `sendErr == nil && sendBuffLen == sizeWrited` fails, but only the
branch for a non-nil `sendErr` closes: the writer calls no `Close` and does not end; it
drops the unwritten byte, takes the next send-pending signal, writes from it and goes back
to waiting. -/
theorem partial_write_not_fatal :
    shortWrite ⟨false, []⟩ [1, 2, 3] = (2, none) ∧
    (processWrite shortWrite 4 10 (writer0 [] false)
        [SendSignal.pending [1, 2, 3], SendSignal.pending [4, 5]]).1 = WriterEnd.waiting ∧
    (processWrite shortWrite 4 10 (writer0 [] false)
        [SendSignal.pending [1, 2, 3], SendSignal.pending [4, 5]]).2.closeCalls = [] ∧
    (processWrite shortWrite 4 10 (writer0 [] false)
        [SendSignal.pending [1, 2, 3], SendSignal.pending [4, 5]]).2.receiver.ioinner
      = some ⟨false, [[1, 2], [4]]⟩ ∧
    (processWrite shortWrite 4 10 (writer0 [] false)
        [SendSignal.pending [1, 2, 3], SendSignal.pending [4, 5]]).2.receiver.closeSendReq
      = false := by
  decide

/-- The outcomes of one write in the chunk loop, standing at any chunk read from the send
buffer, on a live transport: if `Write` returns an error the writer calls `Close` and leaves
`mainsend`; if it returns without error but with a byte count other than the chunk length,
the writer leaves the chunk loop by a plain `break` without calling `Close`; after a full
write the loop goes on with the next chunk.  Leaving `mainsend` ends the task
(`closeSendReq` set, no further signal taken), while the plain `break` leads to the next
send-pending signal. -/
theorem chunkLoop_write_outcomes (write : TransportWrite) (sendbufferSize fuel : Nat)
    (chunk : Bytes) (st : WriterState) (conn : Conn)
    (hio : st.receiver.ioinner = some conn) (hchunk : 0 < chunk.length) :
    (∀ e, (write conn chunk).2 = some e →
      chunkLoop write sendbufferSize (fuel + 1) chunk st
        = (SendFlow.breakMain, writerClose (wrote st conn chunk (write conn chunk).1))) ∧
    ((write conn chunk).2 = none → (write conn chunk).1 ≠ chunk.length →
      chunkLoop write sendbufferSize (fuel + 1) chunk st
        = (SendFlow.brk, wrote st conn chunk (write conn chunk).1) ∧
      (wrote st conn chunk (write conn chunk).1).closeCalls = st.closeCalls) ∧
    ((write conn chunk).2 = none → (write conn chunk).1 = chunk.length →
      st.receiver.closeOnSended = false →
      chunkLoop write sendbufferSize (fuel + 1) chunk st
        = chunkLoop write sendbufferSize fuel
            (MutexBuffer.Read sendbufferSize st.receiver.sendBuffer).1
            (readChunk sendbufferSize (wrote st conn chunk (write conn chunk).1))) ∧
    (∀ (st0 r : WriterState) (appended : Bytes) (rest : List SendSignal),
      chunkLoop write sendbufferSize fuel
          (MutexBuffer.Read sendbufferSize (st0.receiver.sendBuffer ++ appended)).1
          (readChunk sendbufferSize { st0 with receiver := { st0.receiver with
              sendBuffer := st0.receiver.sendBuffer ++ appended } })
        = (SendFlow.breakMain, r) →
      processWrite write sendbufferSize fuel st0 (SendSignal.pending appended :: rest)
        = (WriterEnd.ended, markCloseSendReq r)) ∧
    (∀ (st0 r : WriterState) (appended : Bytes) (rest : List SendSignal),
      chunkLoop write sendbufferSize fuel
          (MutexBuffer.Read sendbufferSize (st0.receiver.sendBuffer ++ appended)).1
          (readChunk sendbufferSize { st0 with receiver := { st0.receiver with
              sendBuffer := st0.receiver.sendBuffer ++ appended } })
        = (SendFlow.brk, r) →
      processWrite write sendbufferSize fuel st0 (SendSignal.pending appended :: rest)
        = processWrite write sendbufferSize fuel r rest) := by
  refine ⟨?_, ?_, ?_, ?_, ?_⟩
  · intro e he
    rw [chunkLoop]
    simp [hchunk, hio, he]
  · intro hnone hne
    refine ⟨?_, rfl⟩
    rw [chunkLoop]
    simp [hchunk, hio, hnone, Ne.symm hne]
  · intro hnone hfull hcos
    have hcos1 : ∀ n, (wrote st conn chunk n).receiver.closeOnSended = false := fun _ => hcos
    rw [chunkLoop]
    simp only [hchunk, hio, hnone, hfull, hcos1, if_true, and_self, Bool.false_eq_true,
      if_false]
    rfl
  · intro st0 r appended rest h
    rw [processWrite]
    simp only [h]
  · intro st0 r appended rest h
    rw [processWrite]
    simp only [h]

/-- A failing write of the chunk `[1, 2]` closes and leaves `mainsend`. -/
theorem chunkLoop_write_outcomes_witness :
    (writer0 [3] false).receiver.ioinner = some ⟨false, []⟩ ∧
    0 < ([1, 2] : Bytes).length ∧
    (failWrite ⟨false, []⟩ [1, 2]).2 = some (Error.other "broken pipe") ∧
    chunkLoop failWrite 2 (0 + 1) [1, 2] (writer0 [3] false)
      = (SendFlow.breakMain,
          writerClose (wrote (writer0 [3] false) ⟨false, []⟩ [1, 2]
            (failWrite ⟨false, []⟩ [1, 2]).1)) :=
  ⟨rfl, by decide, rfl,
    (chunkLoop_write_outcomes failWrite 2 0 [1, 2] (writer0 [3] false) ⟨false, []⟩ rfl
      (by decide)).1 (Error.other "broken pipe") rfl⟩

/-- For a transport that keeps the `io.Writer` contract (a short count comes with an
error), every write that fails or comes up short makes the writer call `Close` and leave
`mainsend`, at whatever chunk it stands. -/
theorem chunkLoop_conforming_failure_closes (write : TransportWrite)
    (hconf : ∀ conn chunk, (write conn chunk).1 ≠ chunk.length → (write conn chunk).2 ≠ none)
    (sendbufferSize fuel : Nat) (chunk : Bytes) (st : WriterState) (conn : Conn)
    (hio : st.receiver.ioinner = some conn) (hchunk : 0 < chunk.length)
    (hfail : (write conn chunk).2 ≠ none ∨ (write conn chunk).1 ≠ chunk.length) :
    chunkLoop write sendbufferSize (fuel + 1) chunk st
      = (SendFlow.breakMain, writerClose (wrote st conn chunk (write conn chunk).1)) := by
  have herr : (write conn chunk).2 ≠ none := by
    rcases hfail with h | h
    · exact h
    · exact hconf conn chunk h
  obtain ⟨e, he⟩ := Option.ne_none_iff_exists'.mp herr
  rw [chunkLoop]
  simp [hchunk, hio, he]

theorem chunkLoop_closeCalls_prefix (write : TransportWrite) (sendbufferSize fuel : Nat) :
    ∀ (chunk : Bytes) (st : WriterState),
    ∃ l, (chunkLoop write sendbufferSize fuel chunk st).2.closeCalls = st.closeCalls ++ l := by
  induction fuel with
  | zero => intro chunk st; exact ⟨[], by simp [chunkLoop]⟩
  | succ n ih =>
    intro chunk st
    rw [chunkLoop]
    split
    · split
      · exact ⟨[], by simp⟩
      · rename_i conn hio
        simp only
        split
        · split
          · obtain ⟨l, hl⟩ := ih
              (MutexBuffer.Read sendbufferSize
                (writerClose (wrote st conn chunk (write conn chunk).1)).receiver.sendBuffer).1
              (readChunk sendbufferSize (writerClose (wrote st conn chunk (write conn chunk).1)))
            refine ⟨[(wrote st conn chunk (write conn chunk).1).receiver.sendBuffer] ++ l, ?_⟩
            rw [hl]
            simp [readChunk, writerClose, wrote]
          · obtain ⟨l, hl⟩ := ih
              (MutexBuffer.Read sendbufferSize
                (wrote st conn chunk (write conn chunk).1).receiver.sendBuffer).1
              (readChunk sendbufferSize (wrote st conn chunk (write conn chunk).1))
            exact ⟨l, by rw [hl]; simp [readChunk, wrote]⟩
        · split
          · exact ⟨[st.receiver.sendBuffer], by simp [writerClose, wrote]⟩
          · exact ⟨[], by simp [wrote]⟩
    · exact ⟨[], by simp⟩

theorem processWrite_single_closeCalls (write : TransportWrite) (sendbufferSize fuel : Nat)
    (st : WriterState) (appended : Bytes) :
    (processWrite write sendbufferSize fuel st [SendSignal.pending appended]).2.closeCalls
      = (chunkLoop write sendbufferSize fuel
          (MutexBuffer.Read sendbufferSize (st.receiver.sendBuffer ++ appended)).1
          (readChunk sendbufferSize { st with receiver := { st.receiver with
              sendBuffer := st.receiver.sendBuffer ++ appended } })).2.closeCalls := by
  rw [processWrite]
  simp only
  rcases chunkLoop write sendbufferSize fuel
      (MutexBuffer.Read sendbufferSize (st.receiver.sendBuffer ++ appended)).1
      (readChunk sendbufferSize { st with receiver := { st.receiver with
          sendBuffer := st.receiver.sendBuffer ++ appended } }) with ⟨flow, st1⟩
  cases flow <;> simp [processWrite, markCloseSendReq]

theorem chunkLoop_closeCalls_head (write : TransportWrite) (sendbufferSize fuel : Nat)
    (chunk : Bytes) (st : WriterState) (h : st.closeCalls ≠ []) :
    (chunkLoop write sendbufferSize fuel chunk st).2.closeCalls.head? = st.closeCalls.head? := by
  obtain ⟨l, hl⟩ := chunkLoop_closeCalls_prefix write sendbufferSize fuel chunk st
  rw [hl]
  cases hc : st.closeCalls with
  | nil => exact absurd hc h
  | cons a t => rfl

/-- With `closeOnSended` set and a full write, the first `Close` of the chunk loop finds
the send buffer as the read of the current chunk left it. -/
theorem chunkLoop_closeOnSended_head (sendbufferSize fuel : Nat) (chunk : Bytes)
    (st : WriterState) (conn : Conn) (hio : st.receiver.ioinner = some conn)
    (hchunk : 0 < chunk.length) (hcos : st.receiver.closeOnSended = true)
    (hcalls : st.closeCalls = []) :
    (chunkLoop fullWrite sendbufferSize (fuel + 1) chunk st).2.closeCalls.head?
      = some st.receiver.sendBuffer := by
  have hcos1 : ∀ n, (wrote st conn chunk n).receiver.closeOnSended = true := fun _ => hcos
  rw [chunkLoop]
  simp only [hchunk, if_true, hio, fullWrite, and_self, hcos1]
  rw [chunkLoop_closeCalls_head _ _ _ _ _ (by simp [readChunk, writerClose, wrote])]
  simp [readChunk, writerClose, wrote, hcalls]

/-- C12 (fails on the code): with `closeOnSended` set, every write succeeding in full and a
send buffer holding more than one chunk, the first `Close` of the writer comes right after
the first chunk, while the rest of the content, which is not empty, is still in the send
buffer. -/
theorem closeOnSended_closes_after_first_chunk (sendbufferSize fuel : Nat) (content : Bytes)
    (hsize : 0 < sendbufferSize) (hlen : sendbufferSize < content.length) :
    (processWrite fullWrite sendbufferSize (fuel + 1) (writer0 content true)
        [SendSignal.pending []]).2.closeCalls.head? = some (content.drop sendbufferSize) ∧
    content.drop sendbufferSize ≠ [] := by
  refine ⟨?_, ?_⟩
  · have hchunk : 0 < (MutexBuffer.Read sendbufferSize
        ((writer0 content true).receiver.sendBuffer ++ [])).1.length := by
      simp only [MutexBuffer.Read, writer0, List.append_nil, List.length_take]
      omega
    rw [processWrite_single_closeCalls,
      chunkLoop_closeOnSended_head _ _ _ _ ⟨false, []⟩ rfl hchunk rfl rfl]
    simp [readChunk, writer0, MutexBuffer.Read]
  · intro h
    have := congrArg List.length h
    simp only [List.length_drop, List.length_nil] at this
    omega

/-- Witness for C12: chunks of two bytes and the content `[1, 2, 3]`; the writer calls
`Close` with `[3]` still in the send buffer, and again once the buffer is empty. -/
theorem closeOnSended_closes_after_first_chunk_witness :
    0 < 2 ∧ 2 < ([1, 2, 3] : Bytes).length ∧
    (processWrite fullWrite 2 (9 + 1) (writer0 [1, 2, 3] true)
        [SendSignal.pending []]).2.closeCalls.head? = some (([1, 2, 3] : Bytes).drop 2) ∧
    (processWrite fullWrite 2 (9 + 1) (writer0 [1, 2, 3] true)
        [SendSignal.pending []]).2.closeCalls = [[3], []] :=
  ⟨by decide, by decide,
    (closeOnSended_closes_after_first_chunk 2 9 [1, 2, 3] (by decide) (by decide)).1,
    by decide⟩

end Nbpy
